import Mathlib

/-!
# pdudecoder: a shallow embedding of `pdu.go`

The Go source decodes an SMS PDU (3GPP TS 23.040) held in a `[]byte` into a
`Message`.  This file embeds the functions of `pdu.go` as Lean functions and
proves properties of them.

Conventions of the embedding

* a Go `byte`/`uint8` is a `Fin 256`;
* a Go `string` is the list of its bytes (`len` counts bytes and `s[a:b]`
  cuts bytes, exactly as in Go);
* a Go `[]byte` is the list of its visible elements; where the source
  re-slices its argument (`octets[a:b]`, bounded by the capacity and not by
  the length) the elements of the backing array between length and capacity
  are a second list, `spare`;
* a run-time panic (index or slice bounds out of range) is an explicit
  outcome; `Decode` recovers from it as the deferred function of the source
  does;
* the package `decoder` (the character-set codecs) is not part of `pdu.go`;
  its five functions are the fields of a parameter `Codecs`;
* the three `math.Ceil` expressions are embedded by their exact integer value
  `ceilDiv`; `float64Div` models the binary64 division they use, and
  `float64Ceil_exact` and `paddingUDHL_arith` prove the agreement.
-/

namespace PduDecoder

/-- A Go `byte`. -/
abbrev Byte := Fin 256

/-- A Go `string`: its bytes. -/
abbrev GoString := List Byte

/-- Conversion `byte(n)` / `uint8(n)` of a non-negative integer. -/
def byteOf (n : Nat) : Byte := ⟨n % 256, Nat.mod_lt n (by decide)⟩

/-- The functions `pdu.go` imports from package `decoder`.  A function that
returns `(string, error)` in Go returns both components here, the error being
`none` for `nil`.  `Decode` (BCD value of an octet) returns a non-negative
integer. -/
structure Codecs (ε : Type) where
  Decode7Bit : List Byte → GoString × Option ε
  DecodeSemiAddress : List Byte → GoString
  DecodeUcs2 : List Byte → Bool → GoString × Option ε
  Decode : Byte → Nat
  Swap : Byte → Byte

/-- The struct `Message`; `MType` is the field `Type` of the source. -/
structure Message where
  MType : Nat := 0
  SMSC : GoString := []
  Address : GoString := []
  ServiceCenterTime : GoString := []
  ValidityPeriod : GoString := []
  Text : GoString := []
  PartNumber : Byte := 0
  TotalParts : Byte := 0
deriving DecidableEq, Repr

def MessageDeliver : Nat := 0

def MessageSubmit : Nat := 1

/-- Exact value of `int(math.Ceil(float64(a) / b))` for the small non-negative
integers the source applies it to. -/
def ceilDiv (a b : Nat) : Nat := (a + b - 1) / b

/-- Go index expression `s[i]`: `none` is the run-time panic. -/
def index (s : List Byte) (i : Nat) : Option Byte := s[i]?

/-- Go slice expression `s[lo:hi]` on a slice with visible elements `vis`
whose backing array continues with `spare`: it panics (`none`) unless
`0 ≤ lo ≤ hi ≤ cap(s)`; the result has length `hi - lo`. -/
def slice (vis spare : List Byte) (lo hi : Int) : Option (List Byte) :=
  if 0 ≤ lo ∧ lo ≤ hi ∧ hi ≤ ((vis.length + spare.length : Nat) : Int) then
    some (((vis ++ spare).drop lo.toNat).take (hi.toNat - lo.toNat))
  else none

def DecodeNumber {ε : Type} (c : Codecs ε) (octets : List Byte) (ntype : Nat) :
    GoString × Option ε :=
  if ntype = 0x50 then c.Decode7Bit octets
  else (c.DecodeSemiAddress octets, none)

def DCSDefault : Nat := 0x1

def DCS8Bit : Nat := 0x2

def DCSUC2 : Nat := 0x3

def DataCodingScheme (o : Byte) : Nat :=
  let codingGroup := o.val &&& 0xF0
  if 0 ≤ codingGroup ∧ codingGroup ≤ 0x30 then
    let alphabetFlag := o.val &&& 0xC
    if alphabetFlag = 0 then DCSDefault
    else if alphabetFlag = 4 then DCS8Bit
    else if alphabetFlag = 8 then DCSUC2
    else DCSDefault
  else if codingGroup = 0xF0 then
    if o.val &&& 4 ≠ 0 then DCS8Bit else DCSDefault
  else DCSDefault

/-- Decimal digits of `n`, most significant first, as ASCII bytes; `fuel`
bounds the number of digits. -/
def digitsAux : Nat → Nat → List Byte → List Byte
  | 0, _, acc => acc
  | fuel + 1, n, acc =>
    if n < 10 then byteOf (48 + n) :: acc
    else digitsAux fuel (n / 10) (byteOf (48 + n % 10) :: acc)

/-- The Go call `strconv.FormatInt(i, 10)`. -/
def formatInt (i : Int) : GoString :=
  if i < 0 then byteOf 45 :: digitsAux (i.natAbs + 1) i.natAbs []
  else digitsAux (i.natAbs + 1) i.natAbs []

/-- The Go call `fmt.Sprintf("%02d", i)`: at least two characters, padded with
a zero on the left. -/
def sprintf02d (i : Int) : GoString :=
  if 0 ≤ i ∧ i < 10 then byteOf 48 :: formatInt i else formatInt i

/-- A Go string literal of ASCII characters. -/
def lit (s : String) : GoString := s.toList.map (fun ch => byteOf ch.toNat)

def ValidityPeriodRelative (b : Byte) : GoString :=
  let vp : Int := b.val
  if vp < 144 then formatInt ((vp + 1) * 5) ++ lit " minutes"
  else if vp > 143 ∧ vp < 168 then formatInt (((vp - 143) * 30).tdiv 60 + 12) ++ lit " hours"
  else if vp > 167 ∧ vp < 197 then formatInt (vp - 166) ++ lit " days"
  else if vp > 186 then formatInt (vp - 192) ++ lit " weeks"
  else []

/-- The source fills `octets[i]` for `i < 7` from `o[i]`; both index
expressions panic when `len(o) < 7`.  `octets` has `len(o)` entries, the
entries from index 7 on stay zero and are not read. -/
def ServiceCentreTimeStamp {ε : Type} (c : Codecs ε) (o : List Byte) : Option GoString :=
  if o.length < 7 then none
  else
    let octets : List Nat := (o.take 7).map (fun b => c.Decode (c.Swap b))
    let at_ (i : Nat) : Int := ((octets.getD i 0 : Nat) : Int)
    let ts : GoString := if at_ 0 < 70 then lit "20" else lit "19"
    let ts := ts ++ (sprintf02d (at_ 0) ++ lit "-" ++ sprintf02d (at_ 1) ++ lit "-"
      ++ sprintf02d (at_ 2) ++ lit " " ++ sprintf02d (at_ 3) ++ lit ":"
      ++ sprintf02d (at_ 4) ++ lit ":" ++ sprintf02d (at_ 5) ++ lit " GMT ")
    let tz : Nat := octets.getD 6 0
    if tz &&& 0x80 = 0 then
      some (ts ++ lit "+" ++ formatInt ((tz : Int).tdiv 4))
    else
      some (ts ++ lit "-" ++ formatInt (((tz &&& 0x7F : Nat) : Int).tdiv 4))

/-- The float expression `math.Ceil(float64(o) * 70 / 80)` is exact: `o * 70`
is an integer below `2^53` and `o * 70 / 80 = 7 * o / 8` is a multiple of
`1/8`. -/
def UserDataLength (o : Byte) (alphabet : Nat) : Nat :=
  if alphabet = DCSDefault then ceilDiv (o.val * 70) 80 else o.val

def pad7Bit (v : Byte) (padding : Nat) : Byte := byteOf ((v.val >>> padding) &&& 0xFF)

/-- The struct `SIE`; `IEI` and `IEDL` are Go `int`s (the source uses `-1` as
"not read yet"). -/
structure SIE where
  IEI : Int
  IEDL : Int
  IED : List Byte
deriving DecidableEq, Repr

/-- The fresh element `&SIE{IEI: -1, IEDL: -1}`. -/
def SIE.fresh : SIE := { IEI := -1, IEDL := -1, IED := [] }

/-- One iteration of the loop of `UserDataHeader`, on the pair of the element
being filled (`IE`) and the elements completed so far (`IEs`). -/
def UserDataHeader.step (st : SIE × List SIE) (o : Byte) : SIE × List SIE :=
  let IE := st.1
  let IEs := st.2
  if IE.IEI = -1 then ({ IE with IEI := (o.val : Int) }, IEs)
  else if IE.IEDL = -1 then ({ IE with IEDL := (o.val : Int) }, IEs)
  else
    let IE1 : SIE := { IE with IED := IE.IED ++ [o] }
    if (IE1.IED.length : Int) ≥ IE1.IEDL then (SIE.fresh, IEs ++ [IE1])
    else (IE1, IEs)

def UserDataHeader (octets : List Byte) : List SIE :=
  (octets.foldl UserDataHeader.step (SIE.fresh, [])).2

/-- `none` is the panic of `octets[1:]` / `octets[0]` on an empty slice.  In
the padded branch the source assigns the error of the first `Decode7Bit` call
to `err` and then overwrites `err` with the error of the second call. -/
def UserData {ε : Type} (c : Codecs ε) (octets : List Byte) (alphabet padding : Nat) :
    Option (GoString × Option ε) :=
  if alphabet = DCSUC2 then some (c.DecodeUcs2 octets false)
  else if padding = 0 then some (c.Decode7Bit octets)
  else
    match octets with
    | [] => none
    | o0 :: rest =>
      let str := (c.Decode7Bit rest).1
      let r2 := c.Decode7Bit [pad7Bit o0 padding]
      some (r2.1 ++ str, r2.2)

/-! ## The codecs of package `decoder`, modelled from the spec

`pdu.go` only imports them.  The universally quantified results below hold for
every `Codecs`; the concrete evaluations use the instance `specCodecs`. -/

/-- The errors of the modelled codecs. -/
inductive CodecError where
  | unterminatedEscape
  | unevenNumber
deriving DecidableEq, Repr

/-- Modelled from the spec: the codecs return text as a Go `string`, which
holds the UTF-8 encoding of each code point. -/
def utf8 (cp : Nat) : GoString :=
  if cp < 0x80 then [byteOf cp]
  else if cp < 0x800 then [byteOf (0xC0 ||| (cp >>> 6)), byteOf (0x80 ||| (cp &&& 0x3F))]
  else if cp < 0x10000 then
    [byteOf (0xE0 ||| (cp >>> 12)), byteOf (0x80 ||| ((cp >>> 6) &&& 0x3F)),
     byteOf (0x80 ||| (cp &&& 0x3F))]
  else
    [byteOf (0xF0 ||| (cp >>> 18)), byteOf (0x80 ||| ((cp >>> 12) &&& 0x3F)),
     byteOf (0x80 ||| ((cp >>> 6) &&& 0x3F)), byteOf (0x80 ||| (cp &&& 0x3F))]

/-- The number of characters (code points) of a Go string: the bytes that are
not UTF-8 continuation bytes `10xxxxxx`. -/
def runeCount (s : GoString) : Nat := (s.filter (fun b => b.val &&& 0xC0 ≠ 0x80)).length

/-- Modelled from the spec: part of `decoder.Decode7Bit`, the bits of an octet,
least significant first. -/
def bitsOf (b : Byte) : List Bool :=
  (List.range 8).map (fun i => b.val.testBit i)

/-- Modelled from the spec: part of `decoder.Decode7Bit`, the septets packed in
a bit stream, 7 bits each, least significant bit first; an incomplete last
group is fill. -/
def septetsOf : List Bool → List Nat
  | b0 :: b1 :: b2 :: b3 :: b4 :: b5 :: b6 :: rest =>
    (b0.toNat + 2 * b1.toNat + 4 * b2.toNat + 8 * b3.toNat + 16 * b4.toNat
      + 32 * b5.toNat + 64 * b6.toNat) :: septetsOf rest
  | _ => []

/-- Modelled from the spec: the default GSM alphabet (3GPP TS 23.038), as code
points indexed by septet; the table of package `decoder` is not in `pdu.go`. -/
def gsmTable : List Nat :=
  [0x40, 0xA3, 0x24, 0xA5, 0xE8, 0xE9, 0xF9, 0xEC, 0xF2, 0xC7, 0x0A, 0xD8, 0xF8, 0x0D, 0xC5, 0xE5,
   0x394, 0x5F, 0x3A6, 0x393, 0x39B, 0x3A9, 0x3A0, 0x3A8, 0x3A3, 0x398, 0x39E, 0xA0, 0xC6, 0xE6,
   0xDF, 0xC9,
   0x20, 0x21, 0x22, 0x23, 0xA4, 0x25, 0x26, 0x27, 0x28, 0x29, 0x2A, 0x2B, 0x2C, 0x2D, 0x2E, 0x2F,
   0x30, 0x31, 0x32, 0x33, 0x34, 0x35, 0x36, 0x37, 0x38, 0x39, 0x3A, 0x3B, 0x3C, 0x3D, 0x3E, 0x3F,
   0xA1, 0x41, 0x42, 0x43, 0x44, 0x45, 0x46, 0x47, 0x48, 0x49, 0x4A, 0x4B, 0x4C, 0x4D, 0x4E, 0x4F,
   0x50, 0x51, 0x52, 0x53, 0x54, 0x55, 0x56, 0x57, 0x58, 0x59, 0x5A, 0xC4, 0xD6, 0xD1, 0xDC, 0xA7,
   0xBF, 0x61, 0x62, 0x63, 0x64, 0x65, 0x66, 0x67, 0x68, 0x69, 0x6A, 0x6B, 0x6C, 0x6D, 0x6E, 0x6F,
   0x70, 0x71, 0x72, 0x73, 0x74, 0x75, 0x76, 0x77, 0x78, 0x79, 0x7A, 0xE4, 0xF6, 0xF1, 0xFC, 0xE0]

/-- Modelled from the spec: the escape-extension table of the default GSM
alphabet; a septet without an extension stands for its character of the
default table. -/
def gsmEscape (x : Nat) : Nat :=
  if x = 0x0A then 0x0C
  else if x = 0x14 then 0x5E
  else if x = 0x28 then 0x7B
  else if x = 0x29 then 0x7D
  else if x = 0x2F then 0x5C
  else if x = 0x3C then 0x5B
  else if x = 0x3D then 0x7E
  else if x = 0x3E then 0x5D
  else if x = 0x40 then 0x7C
  else if x = 0x65 then 0x20AC
  else gsmTable.getD x 0x20

/-- Modelled from the spec: part of `decoder.Decode7Bit`, the text of a list of
septets; `none` for an escape septet `0x1B` that nothing follows. -/
def gsmText : List Nat → Option GoString
  | [] => some []
  | x :: rest =>
    if x = 0x1B then
      match rest with
      | [] => none
      | y :: rest2 => (gsmText rest2).map (fun t => utf8 (gsmEscape y) ++ t)
    else (gsmText rest).map (fun t => utf8 (gsmTable.getD x 0x20) ++ t)

/-- Modelled from the spec: `decoder.Decode7Bit`, which is not in `pdu.go`
("unpack septets from octets using the default GSM alphabet plus its
escape-extension table; fails on an unterminated escape sequence").  A failure
returns the empty string with the error. -/
def specDecode7Bit (octets : List Byte) : GoString × Option CodecError :=
  match gsmText (septetsOf (octets.flatMap bitsOf)) with
  | some t => (t, none)
  | none => ([], some .unterminatedEscape)

/-- Modelled from the spec: part of `decoder.DecodeSemiAddress`, the character
of a semi-octet: the digits, then `*`, `#`, `a`, `b`, `c`; the filler `0xF`
gives nothing. -/
def semiChar (n : Nat) : GoString :=
  if n < 10 then [byteOf (48 + n)]
  else if n = 10 then lit "*"
  else if n = 11 then lit "#"
  else if n = 12 then lit "a"
  else if n = 13 then lit "b"
  else if n = 14 then lit "c"
  else []

/-- Modelled from the spec: `decoder.DecodeSemiAddress`, which is not in
`pdu.go` ("nibble-swap and map each nibble to a digit or one of the reserved
symbol characters; drops a trailing 0xF filler nibble; never fails"). -/
def specDecodeSemiAddress (octets : List Byte) : GoString :=
  octets.flatMap (fun o => semiChar (o.val &&& 0xF) ++ semiChar (o.val >>> 4))

/-- Modelled from the spec: part of `decoder.DecodeUcs2`, the 16-bit code units
of a byte sequence, most significant byte first unless `swap`; `none` for an
odd number of bytes. -/
def codeUnits (swap : Bool) : List Byte → Option (List Nat)
  | [] => some []
  | [_] => none
  | hi :: lo :: rest =>
    (codeUnits swap rest).map (fun us =>
      (if swap then lo.val * 256 + hi.val else hi.val * 256 + lo.val) :: us)

/-- Modelled from the spec: `decoder.DecodeUcs2`, which is not in `pdu.go`
("decode 2-byte big/little-endian code units into text; fails on an odd byte
count").  The text is a Go string, so each code unit becomes the UTF-8
encoding of its code point. -/
def specDecodeUcs2 (octets : List Byte) (swap : Bool) : GoString × Option CodecError :=
  match codeUnits swap octets with
  | some us => (us.flatMap utf8, none)
  | none => ([], some .unevenNumber)

/-- Modelled from the spec: `decoder.Swap` ("swap_nibbles"). -/
def specSwap (b : Byte) : Byte := byteOf ((b.val <<< 4) ||| (b.val >>> 4))

/-- Modelled from the spec: `decoder.Decode` ("decode_bcd_nibble"): ten times
the high nibble plus the low nibble. -/
def specDecode (b : Byte) : Nat := (b.val >>> 4) * 10 + (b.val &&& 0xF)

/-- Modelled from the spec: the five functions of package `decoder` as the spec
describes them. -/
def specCodecs : Codecs CodecError where
  Decode7Bit := specDecode7Bit
  DecodeSemiAddress := specDecodeSemiAddress
  DecodeUcs2 := specDecodeUcs2
  Decode := specDecode
  Swap := specSwap

/-- A Go `error` returned by `Decode`: an error of a codec, returned as it is,
or the run-time error the deferred function builds from a recovered panic. -/
inductive GoError (ε : Type) where
  | codec (e : ε)
  | runtime
deriving DecidableEq, Repr

/-- How a piece of the body of `Decode` ends: it goes on with a value, it
executes `return nil, err`, or it panics.  A panic keeps the `Message` that
the named result `msg` points to at that moment. -/
inductive Flow (ε α : Type) where
  | next (a : α)
  | ret (e : ε)
  | panic (msg : Message)

def Flow.bind {ε α β : Type} (x : Flow ε α) (f : α → Flow ε β) : Flow ε β :=
  match x with
  | .next a => f a
  | .ret e => .ret e
  | .panic m => .panic m

instance (ε : Type) : Monad (Flow ε) where
  pure := Flow.next
  bind := Flow.bind

/-- The index expression `octets[i]` inside `Decode`, `msg` being the message so far. -/
def getIndex {ε : Type} (octets : List Byte) (msg : Message) (i : Nat) : Flow ε Byte :=
  match index octets i with
  | some b => .next b
  | none => .panic msg

/-- The slice expression `octets[lo:hi]` inside `Decode`. -/
def getSlice {ε : Type} (octets spare : List Byte) (msg : Message) (lo hi : Int) :
    Flow ε (List Byte) :=
  match slice octets spare lo hi with
  | some s => .next s
  | none => .panic msg

/-- The statements `x, err := f(...); if err != nil { return nil, err }`. -/
def orReturn {ε : Type} (r : GoString × Option ε) : Flow ε GoString :=
  match r.2 with
  | none => .next r.1
  | some e => .ret e

/-- The block `// smsc` and the `pos++` after it: the message and `pos`. -/
def decodeSMSC {ε : Type} (c : Codecs ε) (octets spare : List Byte) :
    Flow ε (Message × Nat) := do
  let msg : Message := {}
  let b0 ← getIndex octets msg 0
  let smscLength := b0.val
  if smscLength ≠ 0 then
    let s ← getSlice octets spare msg 2 ((smscLength : Int) + 1)
    let toa ← getIndex octets msg 1
    let smsc ← orReturn (DecodeNumber c s (toa.val &&& 0x70))
    pure ({ msg with SMSC := smsc }, smscLength + 1)
  else
    pure (msg, 1)

/-- The block `if numberLength != 0 { ... }`, the same in the DELIVER and in the
SUBMIT branch (they differ in the order of the slice and index expressions,
which both panic with the same message so far); `pos` is the index of the
type-of-address byte. -/
def decodeAddress {ε : Type} (c : Codecs ε) (octets spare : List Byte) (msg : Message)
    (pos numberLength : Nat) : Flow ε (Message × Nat) := do
  if numberLength ≠ 0 then
    let sliceNumberToA ← getIndex octets msg pos
    let numberByteLength := 1 + ceilDiv numberLength 2
    let sliceNumber ← getSlice octets spare msg ((pos : Int) + 1) ((pos : Int) + numberByteLength)
    let addr ← orReturn (DecodeNumber c sliceNumber (sliceNumberToA.val &&& 0x70))
    pure ({ msg with Address := addr }, pos + numberByteLength)
  else
    pure (msg, pos)

/-- The call `ServiceCentreTimeStamp(octets[pos : pos+7])` inside `Decode`. -/
def getTimeStamp {ε : Type} (c : Codecs ε) (octets spare : List Byte) (msg : Message)
    (pos : Nat) : Flow ε GoString := do
  let o ← getSlice octets spare msg (pos : Int) ((pos : Int) + 7)
  match ServiceCentreTimeStamp c o with
  | some ts => pure ts
  | none => .panic msg

/-- The DELIVER branch; `pos` is the index of the PDU-type byte.  Result: the
message, `pos` and `tpDCS` at the end of the branch. -/
def decodeDeliver {ε : Type} (c : Codecs ε) (octets spare : List Byte) (msg : Message)
    (pos : Nat) : Flow ε (Message × Nat × Nat) := do
  let msg := { msg with MType := MessageDeliver }
  let nl ← getIndex octets msg (pos + 1)
  let (msg, pos) ← decodeAddress c octets spare msg (pos + 2) nl.val
  let d ← getIndex octets msg (pos + 1)
  let tpDCS := DataCodingScheme d
  let ts ← getTimeStamp c octets spare msg (pos + 2)
  pure ({ msg with ServiceCenterTime := ts }, pos + 2 + 6, tpDCS)

/-- The SUBMIT branch; `pos` is the index of the PDU-type byte. -/
def decodeSubmit {ε : Type} (c : Codecs ε) (octets spare : List Byte) (msg : Message)
    (pos : Nat) (pduTypeByte : Byte) : Flow ε (Message × Nat × Nat) := do
  let msg := { msg with MType := MessageSubmit }
  let nl ← getIndex octets msg (pos + 2)
  let (msg, pos) ← decodeAddress c octets spare msg (pos + 3) nl.val
  let d ← getIndex octets msg (pos + 1)
  let tpDCS := DataCodingScheme d
  let vpType := pduTypeByte.val &&& 0x18
  if vpType ≠ 0 then
    if vpType = 0x10 then
      let v ← getIndex octets msg (pos + 2)
      pure ({ msg with ValidityPeriod := ValidityPeriodRelative v }, pos + 2, tpDCS)
    else if vpType = 0x18 then
      let ts ← getTimeStamp c octets spare msg (pos + 2)
      pure ({ msg with ValidityPeriod := ts }, pos + 2 + 6, tpDCS)
    else
      pure (msg, pos + 2, tpDCS)
  else
    pure (msg, pos + 1, tpDCS)

/-- What `Decode` has read when it reaches the user data length: the message so
far, the index `pos` of the UDL byte, the alphabet and the PDU-type byte. -/
structure Fixed where
  msg : Message
  pos : Nat
  tpDCS : Nat
  pduTypeByte : Byte

/-- The body of `Decode` up to and including the `pos++` before the user data
length is read. -/
def decodeFixed {ε : Type} (c : Codecs ε) (octets spare : List Byte) : Flow ε Fixed := do
  let (msg, pos) ← decodeSMSC c octets spare
  let pduTypeByte ← getIndex octets msg pos
  if pduTypeByte.val &&& 0x1 = 0 then
    let (msg, pos, tpDCS) ← decodeDeliver c octets spare msg pos
    pure { msg := msg, pos := pos + 1, tpDCS := tpDCS, pduTypeByte := pduTypeByte }
  else
    let (msg, pos, tpDCS) ← decodeSubmit c octets spare msg pos pduTypeByte
    pure { msg := msg, pos := pos + 1, tpDCS := tpDCS, pduTypeByte := pduTypeByte }

/-- The loop `for _, IE := range tpUDH`: an element with `IEI == 0` sets
`PartNumber` from `IE.IED[2]` and then `TotalParts` from `IE.IED[1]`; the first
index expression panics when the element has fewer than 3 data bytes. -/
def applyIEs {ε : Type} : Message → List SIE → Flow ε Message
  | msg, [] => .next msg
  | msg, IE :: rest =>
    if IE.IEI = 0 then
      match index IE.IED 2, index IE.IED 1 with
      | some p, some t => applyIEs { msg with PartNumber := p, TotalParts := t } rest
      | _, _ => .panic msg
    else applyIEs msg rest

/-- The header that `Decode` reads when the PDU-type byte has bit 6 set: the
value `tpUDHL` of the byte after the UDL byte and the bytes
`octets[pos : pos+tpUDHL]` that are handed to `UserDataHeader`; the argument
`pos` is the index of the UDL byte, `none` is a panic. -/
def headerOctets (octets spare : List Byte) (pos : Nat) : Option (Nat × List Byte) :=
  match index octets (pos + 1) with
  | none => none
  | some l =>
    match slice octets spare ((pos : Int) + 2) ((pos : Int) + 2 + (l.val : Nat)) with
    | none => none
    | some h => some (l.val, h)

/-- The block `if pduTypeByte&0x40 != 0 { ... }`; `pos` is the index of the UDL
byte.  Result: the message, `pos` and `tpUDHL` after the block. -/
def decodeHeader {ε : Type} (octets spare : List Byte) (msg : Message) (pos : Nat)
    (pduTypeByte : Byte) : Flow ε (Message × Nat × Nat) :=
  if pduTypeByte.val &&& 0x40 ≠ 0 then
    match headerOctets octets spare pos with
    | none => .panic msg
    | some (tpUDHL, h) =>
      match applyIEs msg (UserDataHeader h) with
      | .next msg1 => .next (msg1, pos + 2 + tpUDHL - 1, tpUDHL)
      | .ret (e : ε) => .ret e
      | .panic m => .panic m
  else
    .next (msg, pos, 0)

/-- The value of `msgLength` before the header is taken off. -/
def msgLength0 (udl : Byte) (tpDCS : Nat) : Int :=
  if tpDCS = DCSUC2 then ((udl.val : Nat) : Int).tdiv 2 else ((udl.val : Nat) : Int)

/-- The value of `lengthUDHL`. -/
def lengthUDHL (tpUDHL : Nat) : Nat := if tpUDHL ≠ 0 then tpUDHL + 1 else 0

/-- The value of `paddingUDHL`.  The float expression
`math.Ceil(float64(udhBitLength)/7) * 7` is the least multiple of 7 that is at
least `udhBitLength` (at most 2048); `paddingUDHLFloat` spells the float
arithmetic out and `paddingUDHL_arith` proves that the two agree. -/
def paddingUDHL (tpUDHL : Nat) : Nat :=
  if tpUDHL ≠ 0 then
    let udhBitLength := (tpUDHL + 1) * 8
    let nextSeptetStart := ceilDiv udhBitLength 7 * 7
    (nextSeptetStart - udhBitLength) % 256
  else 0

/-- The final value of `msgLength`, the length budget of `Text`. -/
def msgLength (udl : Byte) (tpDCS tpUDHL : Nat) : Int :=
  if tpUDHL ≠ 0 then msgLength0 udl tpDCS - ((lengthUDHL tpUDHL : Nat) + 1)
  else msgLength0 udl tpDCS

/-- The value of `expectedMsgEnd`; `pos` is the index of the first payload byte. -/
def expectedMsgEnd (pos : Nat) (udl : Byte) (tpDCS tpUDHL : Nat) : Int :=
  (pos : Int) + (UserDataLength udl tpDCS : Nat) - (lengthUDHL tpUDHL : Nat)

/-- The value of `userData` before it is cut to `msgLength`: the decoding of
`octets[pos:expectedMsgEnd]`, followed, when the buffer is longer than
expected, by the decoding of `octets[pos:len(octets)]` (errors of that second
decoding are dropped by the source). -/
def decodeUserData {ε : Type} (c : Codecs ε) (octets spare : List Byte) (msg : Message)
    (pos : Nat) (udl : Byte) (tpDCS tpUDHL : Nat) : Flow ε GoString := do
  let sliceMessage ← getSlice octets spare msg (pos : Int) (expectedMsgEnd pos udl tpDCS tpUDHL)
  match UserData c sliceMessage tpDCS (paddingUDHL tpUDHL) with
  | none => .panic msg
  | some r =>
    let userData ← orReturn r
    if expectedMsgEnd pos udl tpDCS tpUDHL < (octets.length : Int) then
      let sliceMessageAll ← getSlice octets spare msg (pos : Int) (octets.length : Int)
      match UserData c sliceMessageAll tpDCS 0 with
      | none => .panic msg
      | some plus => pure (userData ++ plus.1)
    else
      pure userData

/-- The last statement before `return msg, nil`: `Text` is `userData`, cut to
its first `msgLength` bytes when it is longer; the slice expression
`userData[0:msgLength]` panics for a negative `msgLength`. -/
def setText {ε : Type} (msg : Message) (userData : GoString) (msgLength : Int) :
    Flow ε Message :=
  if (userData.length : Int) > msgLength then
    if msgLength < 0 then .panic msg
    else .next { msg with Text := userData.take msgLength.toNat }
  else .next { msg with Text := userData }

/-- The body of `Decode` from the user data length on. -/
def decodeRest {ε : Type} (c : Codecs ε) (octets spare : List Byte) (f : Fixed) :
    Flow ε Message := do
  let udl ← getIndex octets f.msg f.pos
  let (msg, pos, tpUDHL) ← decodeHeader octets spare f.msg f.pos f.pduTypeByte
  let userData ← decodeUserData c octets spare msg (pos + 1) udl f.tpDCS tpUDHL
  setText msg userData (msgLength udl f.tpDCS tpUDHL)

/-- The two named results of `Decode`. -/
structure Result (ε : Type) where
  msg : Option Message
  err : Option (GoError ε)
deriving DecidableEq, Repr

/-- The function `Decode`.  `octets` are the `len(octets)` elements of the
argument and `spare` the elements of its backing array up to `cap(octets)`.
A normal end is `return msg, nil`; `return nil, err` hands a codec error on; a
panic is recovered by the deferred function, which sets `err` and leaves `msg`
as it is. -/
def Decode {ε : Type} (c : Codecs ε) (octets spare : List Byte) : Result ε :=
  match decodeFixed c octets spare >>= decodeRest c octets spare with
  | .next m => { msg := some m, err := none }
  | .ret e => { msg := none, err := some (.codec e) }
  | .panic m => { msg := some m, err := some .runtime }

/-- The PDU-type byte of a buffer: the byte at index `octets[0] + 1`. -/
def pduTypeByte (octets : List Byte) : Option Byte :=
  match index octets 0 with
  | some b0 => index octets (b0.val + 1)
  | none => none

/-- The elements `Decode` gets from `UserDataHeader` when the PDU-type byte has
bit 6 set: the parse of the header bytes that follow the fixed fields; `none`
when the fixed fields or the header bytes cannot be read. -/
def userDataHeader {ε : Type} (c : Codecs ε) (octets spare : List Byte) : Option (List SIE) :=
  match decodeFixed c octets spare with
  | .next f => (headerOctets octets spare f.pos).map (fun p => UserDataHeader p.2)
  | _ => none

/-! ## Example buffers -/

/-- The Submit PDU `0001000B916407281553F800000AE8329BFD4697D9EC37`: no SMSC,
an 11-digit address, default alphabet, UDL 10, text "hellohello". -/
def helloSubmit : List Byte :=
  [0x00, 0x01, 0x00, 0x0B, 0x91, 0x64, 0x07, 0x28, 0x15, 0x53, 0xF8, 0x00, 0x00, 0x0A,
   0xE8, 0x32, 0x9B, 0xFD, 0x46, 0x97, 0xD9, 0xEC, 0x37]

/-- The Submit PDU `0041000B916407281553F8000009050003 2A0302 0036`: PDU-type
byte `0x41` (UDHI set), UDL 9, a header of declared length 5 holding the
concatenation element `00 03 2A 03 02`, and two payload bytes. -/
def concatSubmit : List Byte :=
  [0x00, 0x41, 0x00, 0x0B, 0x91, 0x64, 0x07, 0x28, 0x15, 0x53, 0xF8, 0x00, 0x00, 0x09,
   0x05, 0x00, 0x03, 0x2A, 0x03, 0x02, 0x00, 0x36]

/-- The message `Decode` returns for `helloSubmit`. -/
def helloMessage : Message :=
  { MType := MessageSubmit, Address := lit "46708251358", Text := lit "hellohello" }

/-- The header element of `concatSubmit`: reference 42, 3 parts, part 2. -/
def concatElement : SIE := { IEI := 0, IEDL := 3, IED := [0x2A, 0x03, 0x02] }

/-- The message `Decode` returns for `concatSubmit`. -/
def concatMessage : Message :=
  { MType := MessageSubmit, Address := lit "46708251358", Text := lit "@6",
    PartNumber := 0x02, TotalParts := 0x03 }

/-- The Submit PDU `0001000B916407281553F800000101`: as `helloSubmit`, with UDL 1
and the single payload byte `0x01`, the septet of the pound sign. -/
def poundSubmit : List Byte :=
  [0x00, 0x01, 0x00, 0x0B, 0x91, 0x64, 0x07, 0x28, 0x15, 0x53, 0xF8, 0x00, 0x00, 0x01, 0x01]

/-- The Submit PDU `0001000B916407281553F80008020410`: DCS `0x08` (UCS-2), UDL 2
and the payload `04 10`, the code unit of the Cyrillic capital letter A. -/
def cyrillicSubmit : List Byte :=
  [0x00, 0x01, 0x00, 0x0B, 0x91, 0x64, 0x07, 0x28, 0x15, 0x53, 0xF8, 0x00, 0x08, 0x02,
   0x04, 0x10]

/-- The PDU `helloSubmit` without its last byte: the UDL byte still says 10
septets, that is 9 payload octets, and 8 are present. -/
def helloShort : List Byte :=
  [0x00, 0x01, 0x00, 0x0B, 0x91, 0x64, 0x07, 0x28, 0x15, 0x53, 0xF8, 0x00, 0x00, 0x0A,
   0xE8, 0x32, 0x9B, 0xFD, 0x46, 0x97, 0xD9, 0xEC]

/-- The Submit PDU `0041000B916407281553F8000009050003 2A0302 001B`: as
`concatSubmit`, with the payload bytes `00 1B`; the header padding is 1 bit
and the byte after the padded one is a lone escape septet. -/
def escapeSubmit : List Byte :=
  [0x00, 0x41, 0x00, 0x0B, 0x91, 0x64, 0x07, 0x28, 0x15, 0x53, 0xF8, 0x00, 0x00, 0x09,
   0x05, 0x00, 0x03, 0x2A, 0x03, 0x02, 0x00, 0x1B]

/-! ## An invariant of the loop of `UserDataHeader` -/

/-- The state of the loop of `UserDataHeader` is well formed: every completed
element has `max IEDL 1` data bytes, and the element being filled has fewer. -/
def HeaderInv (st : SIE × List SIE) : Prop :=
  (∀ e ∈ st.2, (e.IED.length : Int) = max e.IEDL 1) ∧
  (st.1.IEI = -1 → st.1.IEDL = -1) ∧
  (st.1.IEDL = -1 → st.1.IED = []) ∧
  (st.1.IEDL ≠ -1 → 0 ≤ st.1.IEDL ∧ (st.1.IED.length : Int) < max st.1.IEDL 1)

/-! ## Serialised headers -/

/-- The bytes of a list of header elements, each given by its identifier and
its data: the identifier, the number of data bytes, the data bytes. -/
def serializeIEs (es : List (Byte × List Byte)) : List Byte :=
  es.flatMap (fun e => e.1 :: byteOf e.2.length :: e.2)

/-- The element `UserDataHeader` is expected to return for an identifier and
its data. -/
def elementOf (e : Byte × List Byte) : SIE :=
  { IEI := (e.1.val : Int), IEDL := (e.2.length : Int), IED := e.2 }

/-! ## Swapped BCD -/

/-- The value of a byte read as swapped BCD: ten times the low nibble plus the
high nibble. -/
def swappedBCD (b : Byte) : Nat := (b.val &&& 0xF) * 10 + (b.val >>> 4)

/-- Both nibbles of a byte are decimal digits. -/
def validBCD (b : Byte) : Prop := b.val &&& 0xF ≤ 9 ∧ b.val >>> 4 ≤ 9

instance (b : Byte) : Decidable (validBCD b) := by
  unfold validBCD
  exact inferInstance

/-- The two decimal digits of a number below 100, as ASCII bytes. -/
def twoDigits (n : Nat) : GoString := [byteOf (48 + n / 10), byteOf (48 + n % 10)]

/-- The 7 bytes of the time stamp 2021-05-03 09:30:00 with the timezone byte
`0x88`: 8 quarters of an hour, with the sign bit of the tens digit set. -/
def westTimeStamp : List Byte := [0x12, 0x50, 0x30, 0x90, 0x03, 0x00, 0x88]

/-! ## The float arithmetic of the padding -/

/-- Go's `float64(a) / float64(b)` for integers `a ≥ 0`, `b > 0` below `2^53`
(their conversion is exact): the quotient `a / b` rounded to 53 significant
bits, ties to even, as IEEE 754 prescribes.  The result is the pair `(m, s)`
that stands for the number `m / 2^s`; `s` is the least shift with
`a * 2^s / b ≥ 2^52`, found among the shifts below 128 (for `a = 0` the
result is `(0, 128)`, the number 0). -/
def float64Div (a b : Nat) : Nat × Nat :=
  let s := ((List.range 128).filter (fun k => a * 2 ^ k < b * 2 ^ 52)).length
  let n := a * 2 ^ s
  let q := n / b
  let r := n % b
  let m := if 2 * r < b then q else if b < 2 * r then q + 1 else if q % 2 = 0 then q else q + 1
  (m, s)

/-- Go's `math.Ceil` of the float `m / 2^s`, an integer (exactly representable
for the values at hand). -/
def float64Ceil (x : Nat × Nat) : Nat := ceilDiv x.1 (2 ^ x.2)

/-- The value of `paddingUDHL` as the source computes it, with the float
division and `math.Ceil` spelled out; the product with 7 and the conversions
between `int` and `float64` are exact on integers of this size, and `uint8(..)`
of an `int` keeps it modulo 256. -/
def paddingUDHLFloat (tpUDHL : Nat) : Nat :=
  if tpUDHL ≠ 0 then
    let udhBitLength := (tpUDHL + 1) * 8
    let nextSeptetStart := float64Ceil (float64Div udhBitLength 7) * 7
    (((nextSeptetStart : Int) - (udhBitLength : Int)) % 256).toNat
  else 0

/-! ## A Deliver example -/

/-- The Deliver PDU
`07911326040000F0040B911346610089F60000208062917314080CC8F71D14969741F977FD07`:
SMSC 31624000000, PDU-type byte `0x04`, sender 31641600986, default alphabet,
time stamp 2002-08-26 19:37:41, UDL 12, text "How are you?". -/
def howDeliver : List Byte :=
  [0x07, 0x91, 0x13, 0x26, 0x04, 0x00, 0x00, 0xF0, 0x04, 0x0B, 0x91, 0x13, 0x46, 0x61, 0x00,
   0x89, 0xF6, 0x00, 0x00, 0x20, 0x80, 0x62, 0x91, 0x73, 0x14, 0x08, 0x0C, 0xC8, 0xF7, 0x1D,
   0x14, 0x96, 0x97, 0x41, 0xF9, 0x77, 0xFD, 0x07]

/-- The message `Decode` returns for `howDeliver`. -/
def howMessage : Message :=
  { MType := MessageDeliver, SMSC := lit "31624000000", Address := lit "31641600986",
    ServiceCenterTime := lit "2002-08-26 19:37:41 GMT +20", Text := lit "How are you?" }

/-! ## How the pieces of `Decode` end -/

theorem Flow.bind_eq {ε α β : Type} (x : Flow ε α) (f : α → Flow ε β) :
    (x >>= f) = Flow.bind x f := rfl

theorem Flow.pure_eq {ε α : Type} (a : α) : (pure a : Flow ε α) = Flow.next a := rfl

theorem Flow.bind_next_iff {ε α β : Type} (x : Flow ε α) (f : α → Flow ε β) (b : β) :
    Flow.bind x f = .next b ↔ ∃ a, x = .next a ∧ f a = .next b := by
  cases x <;> simp [Flow.bind]

theorem getIndex_next_iff {ε : Type} (octets : List Byte) (msg : Message) (i : Nat) (b : Byte) :
    (getIndex octets msg i : Flow ε Byte) = .next b ↔ octets[i]? = some b := by
  unfold getIndex index
  cases h : octets[i]? <;> simp

theorem getSlice_next_iff {ε : Type} (octets spare : List Byte) (msg : Message) (lo hi : Int)
    (r : List Byte) :
    (getSlice octets spare msg lo hi : Flow ε (List Byte)) = .next r ↔
      slice octets spare lo hi = some r := by
  unfold getSlice
  cases h : slice octets spare lo hi <;> simp

theorem orReturn_next_iff {ε : Type} (r : GoString × Option ε) (t : GoString) :
    orReturn r = .next t ↔ r.2 = none ∧ r.1 = t := by
  unfold orReturn
  cases h : r.2 <;> simp

theorem decodeSMSC_next {ε : Type} (c : Codecs ε) (octets spare : List Byte) (msg : Message)
    (pos : Nat) (h : decodeSMSC c octets spare = .next (msg, pos)) :
    msg.PartNumber = 0 ∧ msg.TotalParts = 0 ∧ ∃ b0, octets[0]? = some b0 ∧ pos = b0.val + 1 := by
  unfold decodeSMSC at h
  simp only [Flow.bind_eq, Flow.pure_eq, Flow.bind_next_iff, getIndex_next_iff] at h
  obtain ⟨b0, hb0, h⟩ := h
  split at h
  · simp only [Flow.bind_next_iff, getIndex_next_iff, getSlice_next_iff, orReturn_next_iff] at h
    obtain ⟨s, -, toa, -, smsc, -, h⟩ := h
    simp at h
    obtain ⟨rfl, rfl⟩ := h
    exact ⟨rfl, rfl, b0, hb0, rfl⟩
  · rename_i h0
    simp at h h0
    obtain ⟨rfl, rfl⟩ := h
    exact ⟨rfl, rfl, b0, hb0, by simp [h0]⟩

theorem decodeAddress_next {ε : Type} (c : Codecs ε) (octets spare : List Byte)
    (msg msg1 : Message) (pos numberLength pos1 : Nat)
    (h : decodeAddress c octets spare msg pos numberLength = .next (msg1, pos1)) :
    pos ≤ pos1 ∧ msg1.PartNumber = msg.PartNumber ∧ msg1.TotalParts = msg.TotalParts := by
  unfold decodeAddress at h
  split at h
  · simp only [Flow.bind_eq, Flow.pure_eq, Flow.bind_next_iff, getIndex_next_iff,
      getSlice_next_iff, orReturn_next_iff] at h
    obtain ⟨toa, -, s, -, addr, -, h⟩ := h
    simp at h
    obtain ⟨rfl, rfl⟩ := h
    exact ⟨by omega, rfl, rfl⟩
  · simp [Flow.pure_eq] at h
    obtain ⟨rfl, rfl⟩ := h
    exact ⟨le_refl _, rfl, rfl⟩

theorem decodeDeliver_next {ε : Type} (c : Codecs ε) (octets spare : List Byte)
    (msg msg1 : Message) (pos pos1 dcs : Nat)
    (h : decodeDeliver c octets spare msg pos = .next (msg1, pos1, dcs)) :
    pos + 10 ≤ pos1 ∧ msg1.PartNumber = msg.PartNumber ∧ msg1.TotalParts = msg.TotalParts := by
  unfold decodeDeliver at h
  simp only [Flow.bind_eq, Flow.pure_eq, Flow.bind_next_iff, getIndex_next_iff] at h
  obtain ⟨nl, -, ⟨msg2, pos2⟩, ha, d, -, ts, -, h⟩ := h
  have ha := decodeAddress_next c octets spare _ _ _ _ _ ha
  simp at h
  obtain ⟨rfl, rfl, -⟩ := h
  exact ⟨by omega, ha.2.1, ha.2.2⟩

theorem decodeSubmit_next {ε : Type} (c : Codecs ε) (octets spare : List Byte)
    (msg msg1 : Message) (pos pos1 dcs : Nat) (t : Byte)
    (h : decodeSubmit c octets spare msg pos t = .next (msg1, pos1, dcs)) :
    pos + 4 ≤ pos1 ∧ msg1.PartNumber = msg.PartNumber ∧ msg1.TotalParts = msg.TotalParts := by
  unfold decodeSubmit at h
  simp only [Flow.bind_eq, Flow.pure_eq, Flow.bind_next_iff, getIndex_next_iff] at h
  obtain ⟨nl, -, ⟨msg2, pos2⟩, ha, d, -, h⟩ := h
  have ha := decodeAddress_next c octets spare _ _ _ _ _ ha
  simp only at h
  split at h
  · split at h
    · simp only [Flow.bind_next_iff] at h
      obtain ⟨v, -, h⟩ := h
      simp at h
      obtain ⟨rfl, rfl, -⟩ := h
      exact ⟨by omega, ha.2.1, ha.2.2⟩
    · split at h
      · simp only [Flow.bind_next_iff] at h
        obtain ⟨v, -, h⟩ := h
        simp at h
        obtain ⟨rfl, rfl, -⟩ := h
        exact ⟨by omega, ha.2.1, ha.2.2⟩
      · simp at h
        obtain ⟨rfl, rfl, -⟩ := h
        exact ⟨by omega, ha.2.1, ha.2.2⟩
  · simp at h
    obtain ⟨rfl, rfl, -⟩ := h
    exact ⟨by omega, ha.2.1, ha.2.2⟩

theorem decodeFixed_next {ε : Type} (c : Codecs ε) (octets spare : List Byte) (f : Fixed)
    (h : decodeFixed c octets spare = .next f) :
    6 ≤ f.pos ∧ f.msg.PartNumber = 0 ∧ f.msg.TotalParts = 0 ∧
      pduTypeByte octets = some f.pduTypeByte := by
  unfold decodeFixed at h
  simp only [Flow.bind_eq, Flow.pure_eq, Flow.bind_next_iff, getIndex_next_iff] at h
  obtain ⟨⟨msg, pos⟩, hs, t, ht, h⟩ := h
  obtain ⟨hp, htp, b0, hb0, rfl⟩ := decodeSMSC_next c octets spare msg pos hs
  have hty : pduTypeByte octets = some t := by
    simp [pduTypeByte, index, hb0, ht]
  simp only at h
  split at h
  · simp only [Flow.bind_next_iff] at h
    obtain ⟨⟨msg1, pos1, dcs⟩, hd, h⟩ := h
    have hd := decodeDeliver_next c octets spare _ _ _ _ _ hd
    simp at h
    subst h
    exact ⟨by simp; omega, by simpa [hp] using hd.2.1, by simpa [htp] using hd.2.2, hty⟩
  · simp only [Flow.bind_next_iff] at h
    obtain ⟨⟨msg1, pos1, dcs⟩, hd, h⟩ := h
    have hd := decodeSubmit_next c octets spare _ _ _ _ _ _ hd
    simp at h
    subst h
    exact ⟨by simp; omega, by simpa [hp] using hd.2.1, by simpa [htp] using hd.2.2, hty⟩

theorem Decode_ok_iff {ε : Type} (c : Codecs ε) (octets spare : List Byte) (m : Message) :
    Decode c octets spare = { msg := some m, err := none } ↔
      ∃ f, decodeFixed c octets spare = .next f ∧ decodeRest c octets spare f = .next m := by
  unfold Decode
  rw [Flow.bind_eq, ← Flow.bind_next_iff]
  cases Flow.bind (decodeFixed c octets spare) (decodeRest c octets spare) <;> simp

theorem Decode_err_none_iff {ε : Type} (c : Codecs ε) (octets spare : List Byte) :
    (Decode c octets spare).err = none ↔
      ∃ m, Decode c octets spare = { msg := some m, err := none } := by
  unfold Decode
  cases decodeFixed c octets spare >>= decodeRest c octets spare <;> simp

theorem setText_next {ε : Type} (msg m : Message) (userData : GoString) (n : Int)
    (h : (setText msg userData n : Flow ε Message) = .next m) :
    m.PartNumber = msg.PartNumber ∧ m.TotalParts = msg.TotalParts := by
  unfold setText at h
  split at h
  · split at h
    · simp at h
    · simp at h
      subst h
      exact ⟨rfl, rfl⟩
  · simp at h
    subst h
    exact ⟨rfl, rfl⟩

theorem applyIEs_none {ε : Type} (ies : List SIE) (msg : Message)
    (h : ∀ e ∈ ies, e.IEI ≠ 0) : (applyIEs msg ies : Flow ε Message) = .next msg := by
  induction ies generalizing msg with
  | nil => rfl
  | cons e rest ih =>
    have he : e.IEI ≠ 0 := h e (List.mem_cons_self _ _)
    have hr : ∀ x ∈ rest, x.IEI ≠ 0 := fun x hx => h x (List.mem_cons_of_mem _ hx)
    simp [applyIEs, he, ih msg hr]

theorem applyIEs_single {ε : Type} (ies : List SIE) (msg : Message) (ie : SIE)
    (ref total part : Byte)
    (h0 : ies.filter (fun e => e.IEI = 0) = [ie]) (hd : ie.IED = [ref, total, part]) :
    (applyIEs msg ies : Flow ε Message) =
      .next { msg with PartNumber := part, TotalParts := total } := by
  induction ies generalizing msg with
  | nil => simp at h0
  | cons e rest ih =>
    by_cases he : e.IEI = 0
    · simp [List.filter_cons, he] at h0
      obtain ⟨rfl, hrest⟩ := h0
      have hr : ∀ x ∈ rest, x.IEI ≠ 0 := fun x hx => hrest x hx
      simp [applyIEs, he, hd, index, applyIEs_none rest _ hr]
    · simp [List.filter_cons, he] at h0
      simp [applyIEs, he, ih msg h0]

theorem decodeHeader_next {ε : Type} (octets spare : List Byte) (msg msg1 : Message)
    (pos pos1 tpUDHL : Nat) (t : Byte)
    (h : (decodeHeader octets spare msg pos t : Flow ε (Message × Nat × Nat)) =
      .next (msg1, pos1, tpUDHL)) :
    (t.val &&& 0x40 = 0 ∧ msg1 = msg) ∨
    (t.val &&& 0x40 ≠ 0 ∧ ∃ hb, headerOctets octets spare pos = some (tpUDHL, hb) ∧
      (applyIEs msg (UserDataHeader hb) : Flow ε Message) = .next msg1) := by
  unfold decodeHeader at h
  split at h
  · rename_i ht
    right
    refine ⟨ht, ?_⟩
    split at h
    · simp at h
    · rename_i l hb hho
      split at h
      · rename_i m2 happ
        simp at h
        obtain ⟨rfl, -, rfl⟩ := h
        exact ⟨hb, hho, happ⟩
      · simp at h
      · simp at h
  · rename_i ht
    simp at h ht
    exact Or.inl ⟨ht, h.1.symm⟩

theorem decodeRest_next {ε : Type} (c : Codecs ε) (octets spare : List Byte) (f : Fixed)
    (m : Message) (h : decodeRest c octets spare f = .next m) :
    f.pos < octets.length ∧
    ∃ msg1 pos1 tpUDHL,
      (decodeHeader octets spare f.msg f.pos f.pduTypeByte : Flow ε (Message × Nat × Nat)) =
        .next (msg1, pos1, tpUDHL) ∧
      m.PartNumber = msg1.PartNumber ∧ m.TotalParts = msg1.TotalParts := by
  unfold decodeRest at h
  simp only [Flow.bind_eq, Flow.bind_next_iff, getIndex_next_iff] at h
  obtain ⟨udl, hudl, ⟨msg1, pos1, tpUDHL⟩, hh, ud, -, hset⟩ := h
  have hlt : f.pos < octets.length := by
    by_contra hge
    rw [List.getElem?_eq_none (by omega)] at hudl
    simp at hudl
  have hs := setText_next _ _ _ _ hset
  exact ⟨hlt, msg1, pos1, tpUDHL, hh, hs.1, hs.2⟩

theorem setText_take {ε : Type} (msg : Message) (userData : GoString) (n : Nat) :
    (setText msg userData (n : Int) : Flow ε Message) =
      .next { msg with Text := userData.take n } := by
  unfold setText
  by_cases h : (userData.length : Int) > (n : Int)
  · rw [if_pos h, if_neg (by omega)]
    simp
  · rw [if_neg h, List.take_of_length_le (by omega)]

theorem setText_next_text {ε : Type} (msg m : Message) (userData : GoString) (n : Int)
    (h : (setText msg userData n : Flow ε Message) = .next m) :
    0 ≤ n ∧ m.Text = userData.take n.toNat := by
  unfold setText at h
  split at h
  · rename_i hgt
    split at h
    · simp at h
    · rename_i hn
      simp at h
      subst h
      exact ⟨by omega, rfl⟩
  · rename_i hle
    simp at h
    subst h
    have hn : 0 ≤ n := by omega
    refine ⟨hn, ?_⟩
    simp only
    rw [List.take_of_length_le (by omega)]

theorem decodeUserData_next {ε : Type} (c : Codecs ε) (octets spare : List Byte) (msg : Message)
    (pos : Nat) (udl : Byte) (tpDCS tpUDHL : Nat) (D : GoString)
    (h : decodeUserData c octets spare msg pos udl tpDCS tpUDHL = .next D) :
    (pos : Int) ≤ expectedMsgEnd pos udl tpDCS tpUDHL ∧
      expectedMsgEnd pos udl tpDCS tpUDHL ≤ ((octets.length + spare.length : Nat) : Int) := by
  unfold decodeUserData at h
  simp only [Flow.bind_eq, Flow.bind_next_iff, getSlice_next_iff] at h
  obtain ⟨s, hs, -⟩ := h
  unfold slice at hs
  split at hs
  · rename_i hc
    exact ⟨hc.2.1, hc.2.2⟩
  · simp at hs

/-! ## General facts about `Decode` and `UserDataHeader` -/

/-- What a successful `Decode` has done with the payload: the expected end of
the payload lies within the capacity of the buffer, the length budget is not
negative, and `Text` is the first `msgLength` bytes of the decoded user data. -/
theorem Decode_ok_payload {ε : Type} (c : Codecs ε) (octets spare : List Byte) (m : Message)
    (hok : Decode c octets spare = { msg := some m, err := none }) :
    ∃ (f : Fixed) (udl : Byte) (msg1 : Message) (pos1 tpUDHL : Nat) (D : GoString),
      decodeFixed c octets spare = .next f ∧ octets[f.pos]? = some udl ∧
      (decodeHeader octets spare f.msg f.pos f.pduTypeByte : Flow ε (Message × Nat × Nat)) =
        .next (msg1, pos1, tpUDHL) ∧
      decodeUserData c octets spare msg1 (pos1 + 1) udl f.tpDCS tpUDHL = .next D ∧
      expectedMsgEnd (pos1 + 1) udl f.tpDCS tpUDHL ≤ ((octets.length + spare.length : Nat) : Int) ∧
      0 ≤ msgLength udl f.tpDCS tpUDHL ∧
      m.Text = D.take (msgLength udl f.tpDCS tpUDHL).toNat := by
  obtain ⟨f, hf, hr⟩ := (Decode_ok_iff c octets spare m).1 hok
  unfold decodeRest at hr
  simp only [Flow.bind_eq, Flow.bind_next_iff, getIndex_next_iff] at hr
  obtain ⟨udl, hudl, ⟨msg1, pos1, tpUDHL⟩, hh, D, hD, hset⟩ := hr
  have ht := setText_next_text _ _ _ _ hset
  have hu := decodeUserData_next c octets spare _ _ _ _ _ _ hD
  exact ⟨f, udl, msg1, pos1, tpUDHL, D, hf, hudl, hh, hD, hu.2, ht.1, ht.2⟩

/-- The Submit PDU without SMSC, with an 11-digit address that is not
alphanumeric, the default alphabet, no validity period and no header, whose
payload has the length the UDL byte implies and is accepted by the
packed-7-bit codec: `Decode` returns a Submit message with the semi-octet
decoding of the six address bytes and, as `Text`, the first `UDL` bytes of the
packed-7-bit decoding of the payload. -/
theorem Decode_submit_default7bit {ε : Type} (c : Codecs ε) (spare : List Byte)
    (b0 t b2 nl toa a0 a1 a2 a3 a4 a5 b11 dcs udl : Byte) (payload : List Byte)
    (hb0 : b0.val = 0)
    (ht1 : t.val &&& 0x1 ≠ 0) (ht2 : t.val &&& 0x18 = 0) (ht3 : t.val &&& 0x40 = 0)
    (hnl : nl.val = 11)
    (htoa : toa.val &&& 0x70 ≠ 0x50) (hdcs : DataCodingScheme dcs = DCSDefault)
    (hlen : payload.length = ceilDiv (udl.val * 70) 80)
    (hacc : (c.Decode7Bit payload).2 = none) :
    Decode c (b0 :: t :: b2 :: nl :: toa :: a0 :: a1 :: a2 :: a3 :: a4 :: a5 :: b11 :: dcs :: udl
        :: payload) spare =
      { msg := some { MType := MessageSubmit,
                      Address := c.DecodeSemiAddress [a0, a1, a2, a3, a4, a5],
                      Text := (c.Decode7Bit payload).1.take udl.val },
        err := none } := by
  have hA : slice (b0 :: t :: b2 :: nl :: toa :: a0 :: a1 :: a2 :: a3 :: a4 :: a5 :: b11 :: dcs
      :: udl :: payload) spare 5 11 = some [a0, a1, a2, a3, a4, a5] := by
    unfold slice
    rw [if_pos (by simp; omega)]
    rfl
  have hE : expectedMsgEnd 14 udl DCSDefault 0 = 14 + (payload.length : Int) := by
    simp [expectedMsgEnd, UserDataLength, lengthUDHL, hlen]
  have hP : slice (b0 :: t :: b2 :: nl :: toa :: a0 :: a1 :: a2 :: a3 :: a4 :: a5 :: b11 :: dcs
      :: udl :: payload) spare 14 (14 + (payload.length : Int)) = some payload := by
    unfold slice
    rw [if_pos (by simp; omega)]
    have : (14 + (payload.length : Int)).toNat - (14 : Int).toNat = payload.length := by omega
    rw [this]
    simp
  have hU : UserData c payload DCSDefault (paddingUDHL 0) = some (c.Decode7Bit payload) := by
    simp [UserData, paddingUDHL, DCSDefault, DCSUC2]
  have hM : msgLength udl DCSDefault 0 = ((udl.val : Nat) : Int) := by
    simp [msgLength, msgLength0, DCSDefault, DCSUC2]
  have ht1m : t.val % 2 ≠ 0 := by simpa [Nat.and_one_is_mod] using ht1
  rw [Decode_ok_iff]
  refine ⟨{ msg := { MType := MessageSubmit,
                     Address := c.DecodeSemiAddress [a0, a1, a2, a3, a4, a5] },
            pos := 13, tpDCS := DCSDefault, pduTypeByte := t }, ?_, ?_⟩
  · simp [decodeFixed, decodeSMSC, decodeSubmit, decodeAddress, Flow.bind_eq, Flow.pure_eq,
      Flow.bind, getIndex, index, getSlice, orReturn, DecodeNumber, hb0, hnl, ht1m, ht2, htoa,
      hdcs, ceilDiv, hA]
  · simp [decodeRest, decodeHeader, decodeUserData, Flow.bind_eq, Flow.pure_eq, Flow.bind,
      getIndex, index, ht3, getSlice, hE, hP, hU, hM, orReturn, hacc, setText_take]
    rw [if_neg (by omega)]

theorem HeaderInv_step (st : SIE × List SIE) (o : Byte) (h : HeaderInv st) :
    HeaderInv (UserDataHeader.step st o) := by
  obtain ⟨hall, h1, h2, h3⟩ := h
  unfold UserDataHeader.step
  have ho : (0 : Int) ≤ (o.val : Int) := Int.ofNat_nonneg _
  by_cases hi : st.1.IEI = -1
  · simp only [hi, if_true]
    refine ⟨hall, ?_, ?_, ?_⟩
    · intro hc
      simp at hc
    · intro _
      exact h2 (h1 hi)
    · intro hc
      exact absurd (h1 hi) hc
  · by_cases hl : st.1.IEDL = -1
    · simp only [hi, hl, if_false, if_true]
      refine ⟨hall, ?_, ?_, ?_⟩
      · intro hc
        exact absurd hc hi
      · intro hc
        simp at hc
      · intro _
        simp [h2 hl]
    · obtain ⟨h0, hlt⟩ := h3 hl
      simp only [hi, hl, if_false]
      split
      · rename_i hge
        refine ⟨?_, ?_, ?_, ?_⟩
        · intro e he
          simp at he
          rcases he with he | rfl
          · exact hall e he
          · simp at hge ⊢
            omega
        · intro _
          rfl
        · intro _
          rfl
        · intro hc
          exact absurd rfl hc
      · rename_i hge
        refine ⟨hall, ?_, ?_, ?_⟩
        · intro hc
          exact absurd hc hi
        · intro hc
          exact absurd hc hl
        · intro _
          simp at hge ⊢
          omega

theorem HeaderInv_foldl (octets : List Byte) (st : SIE × List SIE) (h : HeaderInv st) :
    HeaderInv (octets.foldl UserDataHeader.step st) := by
  induction octets generalizing st with
  | nil => exact h
  | cons o rest ih => exact ih _ (HeaderInv_step st o h)

/-- Every element `UserDataHeader` returns has as many data bytes as it
declares, except that an element with declared length 0 has one. -/
theorem UserDataHeader_lengths (octets : List Byte) (e : SIE) (he : e ∈ UserDataHeader octets) :
    (e.IED.length : Int) = max e.IEDL 1 := by
  have h0 : HeaderInv (SIE.fresh, []) := by
    refine ⟨by simp, fun _ => rfl, fun _ => rfl, fun hc => absurd rfl hc⟩
  exact (HeaderInv_foldl octets _ h0).1 e he

/-! ## The claims -/

/-- The error of a short buffer: a buffer of fewer than 7 bytes (the empty
buffer included), with any spare capacity and any codecs, makes `Decode`
return a non-nil error: the read of the user data length is at index 6 or
later, so an index or slice expression panics and is recovered, unless a codec
error is returned before. -/
theorem Decode_short_buffer_fails {ε : Type} (c : Codecs ε) (octets spare : List Byte)
    (h : octets.length < 7) : ∃ e, (Decode c octets spare).err = some e := by
  cases herr : (Decode c octets spare).err with
  | some e => exact ⟨e, rfl⟩
  | none =>
    exfalso
    obtain ⟨m, hm⟩ := (Decode_err_none_iff c octets spare).1 herr
    obtain ⟨f, hf, hr⟩ := (Decode_ok_iff c octets spare m).1 hm
    have h6 := (decodeFixed_next c octets spare f hf).1
    have hlt := (decodeRest_next c octets spare f m hr).1
    omega

/-- The previous theorem at the 6-byte buffer `00 01 00 00 00 00`. -/
theorem Decode_short_buffer_fails_witness :
    ([0x00, 0x01, 0x00, 0x00, 0x00, 0x00] : List Byte).length < 7 ∧
      ∃ e, (Decode specCodecs [0x00, 0x01, 0x00, 0x00, 0x00, 0x00] []).err = some e :=
  ⟨by decide, Decode_short_buffer_fails specCodecs _ _ (by decide)⟩

/-- C3, evaluated at the 6-byte buffer `00 01 00 00 00 00` (no SMSC, a Submit
type byte, an empty address), for all codecs and any spare capacity: the read
of the user data length at index 6 panics and the deferred function sets the
error, but `msg` still points to the message built so far, so `Decode` returns
a Message together with the error; the 1-byte buffer `00` does the same.  The
error itself is there for every buffer of fewer than 7 bytes. -/
theorem Decode_short_buffer_returns_message_too :
    (∀ (ε : Type) (c : Codecs ε) (spare : List Byte),
        Decode c [0x00, 0x01, 0x00, 0x00, 0x00, 0x00] spare =
          { msg := some { MType := MessageSubmit }, err := some .runtime }) ∧
      (∀ (ε : Type) (c : Codecs ε) (spare : List Byte),
        Decode c [0x00] spare = { msg := some {}, err := some .runtime }) ∧
      (∀ (ε : Type) (c : Codecs ε) (octets spare : List Byte),
        octets.length < 7 → ∃ e, (Decode c octets spare).err = some e) :=
  ⟨fun _ _ _ => rfl, fun _ _ _ => rfl,
    fun _ c octets spare h => Decode_short_buffer_fails c octets spare h⟩

/-- C8: when `Decode` succeeds on a buffer whose PDU-type byte has bit 6 (UDHI)
set and the parsed header has exactly one element with `IEI = 0`, with the 3
data bytes `[ref, total, part]`, the message has `TotalParts = total` and
`PartNumber = part`, whatever other elements the header holds. -/
theorem Decode_concatenation {ε : Type} (c : Codecs ε) (octets spare : List Byte)
    (m : Message) (t : Byte) (ies : List SIE) (ie : SIE) (ref total part : Byte)
    (hok : Decode c octets spare = { msg := some m, err := none })
    (ht : pduTypeByte octets = some t) (hudhi : t.val &&& 0x40 ≠ 0)
    (hh : userDataHeader c octets spare = some ies)
    (h0 : ies.filter (fun e => e.IEI = 0) = [ie])
    (hd : ie.IED = [ref, total, part]) :
    m.TotalParts = total ∧ m.PartNumber = part := by
  obtain ⟨f, hf, hr⟩ := (Decode_ok_iff c octets spare m).1 hok
  obtain ⟨-, -, -, hty⟩ := decodeFixed_next c octets spare f hf
  obtain ⟨-, msg1, pos1, tpUDHL, hdh, hp, htp⟩ := decodeRest_next c octets spare f m hr
  have htf : f.pduTypeByte = t := by
    rw [hty] at ht
    exact Option.some.inj ht
  rcases decodeHeader_next octets spare _ _ _ _ _ _ hdh with ⟨hz, -⟩ | ⟨-, hb, hho, happ⟩
  · rw [htf] at hz
    exact absurd hz hudhi
  · have hies : ies = UserDataHeader hb := by
      simp [userDataHeader, hf, hho] at hh
      exact hh.symm
    rw [hies] at h0
    rw [applyIEs_single (UserDataHeader hb) f.msg ie ref total part h0 hd] at happ
    simp at happ
    subst happ
    exact ⟨htp, hp⟩

/-- The previous theorem at `concatSubmit`, whose header is the single element
`00 03 2A 03 02`: 3 parts, part 2. -/
theorem Decode_concatenation_witness :
    Decode specCodecs concatSubmit [] = { msg := some concatMessage, err := none } ∧
      pduTypeByte concatSubmit = some 0x41 ∧ (0x41 : Byte).val &&& 0x40 ≠ 0 ∧
      userDataHeader specCodecs concatSubmit [] = some [concatElement] ∧
      [concatElement].filter (fun e => e.IEI = 0) = [concatElement] ∧
      concatElement.IED = [0x2A, 0x03, 0x02] ∧
      (concatMessage.TotalParts = 0x03 ∧ concatMessage.PartNumber = 0x02) :=
  ⟨by decide, by decide, by decide, by decide, by decide, by decide,
    Decode_concatenation specCodecs concatSubmit [] concatMessage 0x41 [concatElement]
      concatElement 0x2A 0x03 0x02
      (by decide) (by decide) (by decide) (by decide) (by decide) (by decide)⟩

/-- C9, the claim as stated fails: the Submit PDU
`0001000B916407281553F800000AE8329BFD4697D9EC37` has no user data header (bit 6
of its PDU-type byte `0x01` is clear) and decodes to a message with
`TotalParts = 0` and `PartNumber = 0`, not 1 and 1. -/
theorem Decode_single_part_not_one :
    ∃ m, Decode specCodecs helloSubmit [] = { msg := some m, err := none } ∧
      pduTypeByte helloSubmit = some 0x01 ∧ (0x01 : Byte).val &&& 0x40 = 0 ∧
      ¬ (m.TotalParts = 1 ∧ m.PartNumber = 1) :=
  ⟨helloMessage, by decide, by decide, by decide, by decide⟩

/-- C9 as amended: when `Decode` succeeds on a buffer that carries no
concatenation element (bit 6 of the PDU-type byte clear, or a parsed header
without an element of `IEI = 0`), `TotalParts` and `PartNumber` keep the zero
value of the fresh `Message`. -/
theorem Decode_single_part_zero {ε : Type} (c : Codecs ε) (octets spare : List Byte)
    (m : Message)
    (hok : Decode c octets spare = { msg := some m, err := none })
    (hno : (∃ t, pduTypeByte octets = some t ∧ t.val &&& 0x40 = 0) ∨
      (∃ ies, userDataHeader c octets spare = some ies ∧ ∀ e ∈ ies, e.IEI ≠ 0)) :
    m.TotalParts = 0 ∧ m.PartNumber = 0 := by
  obtain ⟨f, hf, hr⟩ := (Decode_ok_iff c octets spare m).1 hok
  obtain ⟨-, hp0, ht0, hty⟩ := decodeFixed_next c octets spare f hf
  obtain ⟨-, msg1, pos1, tpUDHL, hdh, hp, htp⟩ := decodeRest_next c octets spare f m hr
  have hmsg1 : msg1 = f.msg := by
    rcases decodeHeader_next octets spare _ _ _ _ _ _ hdh with ⟨-, h1⟩ | ⟨hset, hb, hho, happ⟩
    · exact h1
    · rcases hno with ⟨t, ht, hclear⟩ | ⟨ies, hh, hall⟩
      · rw [hty] at ht
        rw [Option.some.inj ht] at hset
        exact absurd hclear hset
      · have hies : ies = UserDataHeader hb := by
          simp [userDataHeader, hf, hho] at hh
          exact hh.symm
        rw [hies] at hall
        rw [applyIEs_none (UserDataHeader hb) f.msg hall] at happ
        simp at happ
        exact happ.symm
  rw [hmsg1] at hp htp
  exact ⟨htp.trans ht0, hp.trans hp0⟩

/-- The previous theorem at `helloSubmit`, which has no user data header. -/
theorem Decode_single_part_zero_witness :
    Decode specCodecs helloSubmit [] = { msg := some helloMessage, err := none } ∧
      (∃ t, pduTypeByte helloSubmit = some t ∧ t.val &&& 0x40 = 0) ∧
      (helloMessage.TotalParts = 0 ∧ helloMessage.PartNumber = 0) :=
  ⟨by decide, ⟨0x01, by decide, by decide⟩,
    Decode_single_part_zero specCodecs helloSubmit [] helloMessage (by decide)
      (Or.inl ⟨0x01, by decide, by decide⟩)⟩

/-- C1, evaluated at the Submit PDU `0001000B916407281553F800000101`, which
meets every condition of the claim (UDL 1, one payload byte, accepted by the
codec): the packed-7-bit decoding of the payload is the one-character string
of the pound sign, UTF-8 bytes `C2 A3`, so cutting it to at most 1 character
leaves it whole; `Decode` succeeds with kind Submit and the address, but
`Text` is the single byte `C2`, because the source compares and cuts by bytes. -/
theorem Decode_submit_cuts_inside_character :
    Decode specCodecs poundSubmit [] =
        { msg := some { MType := MessageSubmit, Address := lit "46708251358", Text := [0xC2] },
          err := none } ∧
      DataCodingScheme 0x00 = DCSDefault ∧
      poundSubmit.length = 14 + ceilDiv (7 * 1) 8 ∧
      specCodecs.Decode7Bit (poundSubmit.drop 14) = ([0xC2, 0xA3], none) ∧
      runeCount [0xC2, 0xA3] = 1 := by
  decide

/-- C2, evaluated at `helloSubmit` without its last byte: the expected end of
the payload is offset 23, one past the end of the 22-byte buffer.  With no
spare capacity the slice expression `octets[pos:expectedMsgEnd]` panics and
`Decode` returns the recovered run-time error; with spare capacity the slice
reads the byte that lies behind the end of the buffer. -/
theorem Decode_short_payload_fails :
    expectedMsgEnd 14 0x0A DCSDefault 0 = 23 ∧ helloShort.length = 22 ∧
      Decode specCodecs helloShort [] =
        { msg := some { MType := MessageSubmit, Address := lit "46708251358" },
          err := some .runtime } ∧
      Decode specCodecs helloShort [0x37] = { msg := some helloMessage, err := none } := by
  decide

/-- C4, evaluated at the UCS-2 Submit PDU `0001000B916407281553F80008020410`:
the budget is `2 / 2 = 1` character and the decoded user data is the single
character U+0410 (UTF-8 bytes `D0 90`), yet `Text` is the byte `D0` alone: the
source compares `len(userData)`, a number of bytes, with the budget and cuts
`userData` at that byte offset. -/
theorem Decode_ucs2_cuts_inside_character :
    Decode specCodecs cyrillicSubmit [] =
        { msg := some { MType := MessageSubmit, Address := lit "46708251358", Text := [0xD0] },
          err := none } ∧
      msgLength 0x02 (DataCodingScheme 0x08) 0 = 1 ∧
      specCodecs.DecodeUcs2 (cyrillicSubmit.drop 14) false = ([0xD0, 0x90], none) ∧
      runeCount [0xD0, 0x90] = 1 := by
  decide

/-- C5, the EightBit alphabet: `UserData` has no branch for it; it hands the
payload to the packed-7-bit codec, for every payload when `padding` is 0, and
the two octets `41 42` come back as the septets `41 04` (three bytes of text),
not as the raw octets. -/
theorem UserData_eightBit_is_unpacked :
    (∀ (ε : Type) (c : Codecs ε) (octets : List Byte),
        UserData c octets DCS8Bit 0 = some (c.Decode7Bit octets)) ∧
      UserData specCodecs [0x41, 0x42] DCS8Bit 0 = some ([0x41, 0xC3, 0xA8], none) := by
  refine ⟨fun ε c octets => ?_, by decide⟩
  simp [UserData, DCS8Bit, DCSUC2]

/-- C6, evaluated at the payload `00 1B` with padding 1: the packed-7-bit codec
rejects the bytes after the first one (a lone escape septet), but `UserData`
overwrites that error with the nil error of the second call and returns the
text "@" without an error; `Decode` on a PDU with that payload returns a
message. -/
theorem UserData_drops_codec_error :
    specCodecs.Decode7Bit [0x1B] = ([], some .unterminatedEscape) ∧
      paddingUDHL 5 = 1 ∧
      UserData specCodecs [0x00, 0x1B] DCSDefault 1 = some (lit "@", none) ∧
      Decode specCodecs escapeSubmit [] =
        { msg := some { MType := MessageSubmit, Address := lit "46708251358", Text := lit "@",
                        PartNumber := 0x02, TotalParts := 0x03 },
          err := none } := by
  decide

/-- C7, evaluated at the empty buffer, for all codecs and any spare capacity:
`octets[0]` panics, the deferred function sets `err`, and `msg` still points to
the fresh `Message`: both results are non-nil. -/
theorem Decode_empty_returns_message_and_error {ε : Type} (c : Codecs ε) (spare : List Byte) :
    Decode c [] spare = { msg := some {}, err := some .runtime } := by
  rfl

/-- C10, evaluated at the header bytes `05 00 07`: the element with declared
length 0 is returned with one data byte, the byte that follows it. -/
theorem UserDataHeader_zero_length_takes_byte :
    UserDataHeader [0x05, 0x00, 0x07] = [{ IEI := 5, IEDL := 0, IED := [0x07] }] := by
  decide

/-! ## Header parsing and serialisation -/

theorem UserDataHeader_fill (data pre : List Byte) (acc : List SIE) (i n : Int)
    (hi : i ≠ -1) (hn : n ≠ -1) (hd : data ≠ [])
    (hlen : ((pre.length + data.length : Nat) : Int) = n) :
    data.foldl UserDataHeader.step ({ IEI := i, IEDL := n, IED := pre }, acc) =
      (SIE.fresh, acc ++ [{ IEI := i, IEDL := n, IED := pre ++ data }]) := by
  induction data generalizing pre with
  | nil => exact absurd rfl hd
  | cons d rest ih =>
    cases rest with
    | nil =>
      simp only [List.foldl_cons, List.foldl_nil, UserDataHeader.step, if_neg hi, if_neg hn]
      rw [if_pos]
      simp at hlen ⊢
      omega
    | cons d2 rest2 =>
      rw [List.foldl_cons]
      have hstep : UserDataHeader.step ({ IEI := i, IEDL := n, IED := pre }, acc) d =
          ({ IEI := i, IEDL := n, IED := pre ++ [d] }, acc) := by
        simp only [UserDataHeader.step, if_neg hi, if_neg hn]
        rw [if_neg]
        simp at hlen ⊢
        omega
      rw [hstep, ih (pre ++ [d]) (by simp)]
      · simp
      · simp at hlen ⊢
        omega

theorem UserDataHeader_element (e : Byte × List Byte) (acc : List SIE)
    (h : 1 ≤ e.2.length ∧ e.2.length ≤ 255) :
    (e.1 :: byteOf e.2.length :: e.2).foldl UserDataHeader.step (SIE.fresh, acc) =
      (SIE.fresh, acc ++ [elementOf e]) := by
  have hne : e.2 ≠ [] := by
    intro h0
    rw [h0] at h
    simp at h
  have hb : ((byteOf e.2.length).val : Int) = (e.2.length : Int) := by
    simp [byteOf]
    omega
  have h1 : UserDataHeader.step (SIE.fresh, acc) e.1 =
      ({ IEI := (e.1.val : Int), IEDL := -1, IED := [] }, acc) := by
    simp [UserDataHeader.step, SIE.fresh]
  have hi : ((e.1.val : Nat) : Int) ≠ -1 := by omega
  have h2 : UserDataHeader.step ({ IEI := (e.1.val : Int), IEDL := -1, IED := [] }, acc)
      (byteOf e.2.length) = ({ IEI := (e.1.val : Int), IEDL := (e.2.length : Int), IED := [] }, acc) := by
    simp only [UserDataHeader.step, if_neg hi, if_true, hb]
  rw [List.foldl_cons, h1, List.foldl_cons, h2,
    UserDataHeader_fill e.2 [] acc _ _ hi (by omega) hne (by simp)]
  simp [elementOf]

theorem UserDataHeader_foldl_serialize (es : List (Byte × List Byte)) (acc : List SIE)
    (h : ∀ e ∈ es, 1 ≤ e.2.length ∧ e.2.length ≤ 255) :
    (serializeIEs es).foldl UserDataHeader.step (SIE.fresh, acc) =
      (SIE.fresh, acc ++ es.map elementOf) := by
  induction es generalizing acc with
  | nil => simp [serializeIEs]
  | cons e rest ih =>
    have he := h e (List.mem_cons_self _ _)
    have hr : ∀ x ∈ rest, 1 ≤ x.2.length ∧ x.2.length ≤ 255 :=
      fun x hx => h x (List.mem_cons_of_mem _ hx)
    have hs : serializeIEs (e :: rest) = (e.1 :: byteOf e.2.length :: e.2) ++ serializeIEs rest := by
      simp [serializeIEs]
    rw [hs, List.foldl_append, UserDataHeader_element e acc he, ih _ hr]
    simp

/-! ## The time stamp -/

/-- What `ServiceCentreTimeStamp` does with the timezone byte, for all codecs:
the sign and the number after "GMT " come from the number `Decode (Swap o6)`,
"+" and a quarter of it when its bit 7 is clear, "-" and a quarter of its low
7 bits when that bit is set. -/
theorem ServiceCentreTimeStamp_zone {ε : Type} (c : Codecs ε) (o0 o1 o2 o3 o4 o5 o6 : Byte) :
    ∃ pre : GoString, ServiceCentreTimeStamp c [o0, o1, o2, o3, o4, o5, o6] =
      some (pre ++ lit " GMT " ++
        (if c.Decode (c.Swap o6) &&& 0x80 = 0 then
          lit "+" ++ formatInt ((c.Decode (c.Swap o6) : Int).tdiv 4)
        else lit "-" ++ formatInt (((c.Decode (c.Swap o6) &&& 0x7F : Nat) : Int).tdiv 4))) := by
  unfold ServiceCentreTimeStamp
  simp only [List.length_cons, List.length_nil, List.take, List.map, List.getD_cons_zero,
    List.getD_cons_succ]
  rw [if_neg (by omega)]
  refine ⟨(if (c.Decode (c.Swap o0) : Int) < 70 then lit "20" else lit "19") ++
    (sprintf02d (c.Decode (c.Swap o0) : Int) ++ lit "-" ++
      sprintf02d (c.Decode (c.Swap o1) : Int) ++ lit "-" ++
      sprintf02d (c.Decode (c.Swap o2) : Int) ++ lit " " ++
      sprintf02d (c.Decode (c.Swap o3) : Int) ++ lit ":" ++
      sprintf02d (c.Decode (c.Swap o4) : Int) ++ lit ":" ++
      sprintf02d (c.Decode (c.Swap o5) : Int)), ?_⟩
  split
  · simp only [List.append_assoc]
  · simp only [List.append_assoc]

/-! ## The kind of the message and its fields -/

theorem decodeSMSC_fields {ε : Type} (c : Codecs ε) (octets spare : List Byte) (msg : Message)
    (pos : Nat) (h : decodeSMSC c octets spare = .next (msg, pos)) :
    msg.ValidityPeriod = [] ∧ msg.ServiceCenterTime = [] := by
  unfold decodeSMSC at h
  simp only [Flow.bind_eq, Flow.pure_eq, Flow.bind_next_iff, getIndex_next_iff] at h
  obtain ⟨b0, -, h⟩ := h
  split at h
  · simp only [Flow.bind_next_iff, getIndex_next_iff, getSlice_next_iff, orReturn_next_iff] at h
    obtain ⟨s, -, toa, -, smsc, -, h⟩ := h
    simp at h
    obtain ⟨rfl, -⟩ := h
    exact ⟨rfl, rfl⟩
  · simp at h
    obtain ⟨rfl, -⟩ := h
    exact ⟨rfl, rfl⟩

theorem decodeAddress_fields {ε : Type} (c : Codecs ε) (octets spare : List Byte)
    (msg msg1 : Message) (pos numberLength pos1 : Nat)
    (h : decodeAddress c octets spare msg pos numberLength = .next (msg1, pos1)) :
    msg1.MType = msg.MType ∧ msg1.ValidityPeriod = msg.ValidityPeriod ∧
      msg1.ServiceCenterTime = msg.ServiceCenterTime := by
  unfold decodeAddress at h
  split at h
  · simp only [Flow.bind_eq, Flow.pure_eq, Flow.bind_next_iff, getIndex_next_iff,
      getSlice_next_iff, orReturn_next_iff] at h
    obtain ⟨toa, -, s, -, addr, -, h⟩ := h
    simp at h
    obtain ⟨rfl, -⟩ := h
    exact ⟨rfl, rfl, rfl⟩
  · simp [Flow.pure_eq] at h
    obtain ⟨rfl, -⟩ := h
    exact ⟨rfl, rfl, rfl⟩

theorem decodeDeliver_fields {ε : Type} (c : Codecs ε) (octets spare : List Byte)
    (msg msg1 : Message) (pos pos1 dcs : Nat)
    (h : decodeDeliver c octets spare msg pos = .next (msg1, pos1, dcs)) :
    msg1.MType = MessageDeliver ∧ msg1.ValidityPeriod = msg.ValidityPeriod := by
  unfold decodeDeliver at h
  simp only [Flow.bind_eq, Flow.pure_eq, Flow.bind_next_iff, getIndex_next_iff] at h
  obtain ⟨nl, -, ⟨msg2, pos2⟩, ha, d, -, ts, -, h⟩ := h
  have ha := decodeAddress_fields c octets spare _ _ _ _ _ ha
  simp at h
  obtain ⟨rfl, -, -⟩ := h
  exact ⟨ha.1, ha.2.1⟩

theorem decodeSubmit_fields {ε : Type} (c : Codecs ε) (octets spare : List Byte)
    (msg msg1 : Message) (pos pos1 dcs : Nat) (t : Byte)
    (h : decodeSubmit c octets spare msg pos t = .next (msg1, pos1, dcs)) :
    msg1.MType = MessageSubmit ∧ msg1.ServiceCenterTime = msg.ServiceCenterTime ∧
      (t.val &&& 0x18 = 0 → msg1.ValidityPeriod = msg.ValidityPeriod) := by
  unfold decodeSubmit at h
  simp only [Flow.bind_eq, Flow.pure_eq, Flow.bind_next_iff, getIndex_next_iff] at h
  obtain ⟨nl, -, ⟨msg2, pos2⟩, ha, d, -, h⟩ := h
  have ha := decodeAddress_fields c octets spare _ _ _ _ _ ha
  simp only at h
  split at h
  · rename_i hvp
    split at h
    · simp only [Flow.bind_next_iff] at h
      obtain ⟨v, -, h⟩ := h
      simp at h
      obtain ⟨rfl, -, -⟩ := h
      exact ⟨ha.1, ha.2.2, fun h0 => absurd h0 hvp⟩
    · split at h
      · simp only [Flow.bind_next_iff] at h
        obtain ⟨v, -, h⟩ := h
        simp at h
        obtain ⟨rfl, -, -⟩ := h
        exact ⟨ha.1, ha.2.2, fun h0 => absurd h0 hvp⟩
      · simp at h
        obtain ⟨rfl, -, -⟩ := h
        exact ⟨ha.1, ha.2.2, fun h0 => absurd h0 hvp⟩
  · simp at h
    obtain ⟨rfl, -, -⟩ := h
    exact ⟨ha.1, ha.2.2, fun _ => ha.2.1⟩

theorem decodeFixed_fields {ε : Type} (c : Codecs ε) (octets spare : List Byte) (f : Fixed)
    (h : decodeFixed c octets spare = .next f) :
    (f.pduTypeByte.val &&& 0x1 = 0 →
        f.msg.MType = MessageDeliver ∧ f.msg.ValidityPeriod = []) ∧
      (f.pduTypeByte.val &&& 0x1 ≠ 0 →
        f.msg.MType = MessageSubmit ∧ f.msg.ServiceCenterTime = [] ∧
          (f.pduTypeByte.val &&& 0x18 = 0 → f.msg.ValidityPeriod = [])) := by
  unfold decodeFixed at h
  simp only [Flow.bind_eq, Flow.pure_eq, Flow.bind_next_iff, getIndex_next_iff] at h
  obtain ⟨⟨msg, pos⟩, hs, t, ht, h⟩ := h
  obtain ⟨hvp, hsct⟩ := decodeSMSC_fields c octets spare msg pos hs
  simp only at h
  split at h
  · rename_i hbit
    simp only [Flow.bind_next_iff] at h
    obtain ⟨⟨msg1, pos1, dcs⟩, hd, h⟩ := h
    have hd := decodeDeliver_fields c octets spare _ _ _ _ _ hd
    simp at h
    subst h
    exact ⟨fun _ => ⟨hd.1, hd.2.trans hvp⟩, fun hne => absurd hbit hne⟩
  · rename_i hbit
    simp only [Flow.bind_next_iff] at h
    obtain ⟨⟨msg1, pos1, dcs⟩, hd, h⟩ := h
    have hd := decodeSubmit_fields c octets spare _ _ _ _ _ _ hd
    simp at h
    subst h
    exact ⟨fun h0 => absurd h0 hbit,
      fun _ => ⟨hd.1, hd.2.1.trans hsct, fun h18 => (hd.2.2 h18).trans hvp⟩⟩

theorem applyIEs_fields {ε : Type} (ies : List SIE) (msg m : Message)
    (h : (applyIEs msg ies : Flow ε Message) = .next m) :
    m.MType = msg.MType ∧ m.ValidityPeriod = msg.ValidityPeriod ∧
      m.ServiceCenterTime = msg.ServiceCenterTime := by
  induction ies generalizing msg with
  | nil =>
    simp [applyIEs] at h
    subst h
    exact ⟨rfl, rfl, rfl⟩
  | cons e rest ih =>
    unfold applyIEs at h
    split at h
    · split at h
      · have hi := ih _ h
        exact ⟨hi.1, hi.2.1, hi.2.2⟩
      · simp at h
    · exact ih _ h

theorem decodeRest_fields {ε : Type} (c : Codecs ε) (octets spare : List Byte) (f : Fixed)
    (m : Message) (h : decodeRest c octets spare f = .next m) :
    m.MType = f.msg.MType ∧ m.ValidityPeriod = f.msg.ValidityPeriod ∧
      m.ServiceCenterTime = f.msg.ServiceCenterTime := by
  unfold decodeRest at h
  simp only [Flow.bind_eq, Flow.bind_next_iff, getIndex_next_iff] at h
  obtain ⟨udl, -, ⟨msg1, pos1, tpUDHL⟩, hh, ud, -, hset⟩ := h
  have h1 : msg1.MType = f.msg.MType ∧ msg1.ValidityPeriod = f.msg.ValidityPeriod ∧
      msg1.ServiceCenterTime = f.msg.ServiceCenterTime := by
    rcases decodeHeader_next octets spare _ _ _ _ _ _ hh with ⟨-, rfl⟩ | ⟨-, hb, -, happ⟩
    · exact ⟨rfl, rfl, rfl⟩
    · exact applyIEs_fields _ _ _ happ
  have h2 : m.MType = msg1.MType ∧ m.ValidityPeriod = msg1.ValidityPeriod ∧
      m.ServiceCenterTime = msg1.ServiceCenterTime := by
    unfold setText at hset
    split at hset
    · split at hset
      · simp at hset
      · simp at hset
        subst hset
        exact ⟨rfl, rfl, rfl⟩
    · simp at hset
      subst hset
      exact ⟨rfl, rfl, rfl⟩
  exact ⟨h2.1.trans h1.1, h2.2.1.trans h1.2.1, h2.2.2.trans h1.2.2⟩

/-! ## The claims, continued -/

set_option maxRecDepth 100000

/-- C11: `UserDataHeader` undoes the serialisation of header elements: for
every list of elements, each an identifier byte and between 1 and 255 data
bytes, the parse of the concatenated triples identifier, data length, data is
that list in order, with `IEI` the identifier, `IEDL` the data length and
`IED` the data. -/
theorem UserDataHeader_serializeIEs (es : List (Byte × List Byte))
    (h : ∀ e ∈ es, 1 ≤ e.2.length ∧ e.2.length ≤ 255) :
    UserDataHeader (serializeIEs es) = es.map elementOf := by
  unfold UserDataHeader
  rw [UserDataHeader_foldl_serialize es [] h]
  simp

/-- The previous theorem at the single element with identifier 0 and data
`01 02 03`, whose serialisation is `00 03 01 02 03`; `Decode` takes part
number 3 and 2 parts in total from it. -/
theorem UserDataHeader_serializeIEs_witness :
    (∀ e ∈ [((0x00 : Byte), ([0x01, 0x02, 0x03] : List Byte))],
        1 ≤ e.2.length ∧ e.2.length ≤ 255) ∧
      serializeIEs [(0x00, [0x01, 0x02, 0x03])] = [0x00, 0x03, 0x01, 0x02, 0x03] ∧
      UserDataHeader (serializeIEs [(0x00, [0x01, 0x02, 0x03])]) =
        [(0x00, [0x01, 0x02, 0x03])].map elementOf ∧
      [((0x00 : Byte), ([0x01, 0x02, 0x03] : List Byte))].map elementOf =
        [{ IEI := 0, IEDL := 3, IED := [0x01, 0x02, 0x03] }] ∧
      (applyIEs {} (UserDataHeader [0x00, 0x03, 0x01, 0x02, 0x03]) : Flow Unit Message) =
        .next { PartNumber := 0x03, TotalParts := 0x02 } :=
  ⟨by decide, by decide,
    UserDataHeader_serializeIEs [(0x00, [0x01, 0x02, 0x03])] (by decide), by decide, by rfl⟩

/-- C14: for every byte, `DataCodingScheme` is UCS2 exactly when the coding
group `o & 0xF0` is at most `0x30` and `o & 0x0C` is `0x08`; it is EightBit
exactly when the group is at most `0x30` and `o & 0x0C` is `0x04`, or the group
is `0xF0` and bit 2 is set; it is Default7Bit exactly for the other bytes, so
it is always one of the three classes.  The five bytes of the claim are
classified as it says. -/
theorem DataCodingScheme_classes :
    (∀ o : Byte,
      (DataCodingScheme o = DCSUC2 ↔ (o.val &&& 0xF0 ≤ 0x30 ∧ o.val &&& 0x0C = 0x08)) ∧
      (DataCodingScheme o = DCS8Bit ↔
        ((o.val &&& 0xF0 ≤ 0x30 ∧ o.val &&& 0x0C = 0x04) ∨
          (o.val &&& 0xF0 = 0xF0 ∧ o.val &&& 0x04 ≠ 0))) ∧
      (DataCodingScheme o = DCSDefault ↔
        (¬ (o.val &&& 0xF0 ≤ 0x30 ∧ o.val &&& 0x0C = 0x08) ∧
          ¬ ((o.val &&& 0xF0 ≤ 0x30 ∧ o.val &&& 0x0C = 0x04) ∨
            (o.val &&& 0xF0 = 0xF0 ∧ o.val &&& 0x04 ≠ 0)))) ∧
      (DataCodingScheme o = DCSDefault ∨ DataCodingScheme o = DCS8Bit ∨
        DataCodingScheme o = DCSUC2)) ∧
    DataCodingScheme 0x00 = DCSDefault ∧ DataCodingScheme 0x04 = DCS8Bit ∧
    DataCodingScheme 0x08 = DCSUC2 ∧ DataCodingScheme 0xF4 = DCS8Bit ∧
    DataCodingScheme 0xF0 = DCSDefault := by
  decide

/-- C15: for every byte `vp` from 0 to 143, `ValidityPeriodRelative vp` is the
decimal rendering of `(vp + 1) * 5` followed by " minutes". -/
theorem ValidityPeriodRelative_minutes (vp : Byte) (h : vp.val ≤ 143) :
    ValidityPeriodRelative vp = lit (toString ((vp.val + 1) * 5) ++ " minutes") := by
  revert vp
  decide

/-- The previous theorem at `vp = 0` and at `vp = 143`. -/
theorem ValidityPeriodRelative_minutes_witness :
    ((0 : Byte).val ≤ 143 ∧ ValidityPeriodRelative 0 = lit "5 minutes") ∧
      ((143 : Byte).val ≤ 143 ∧ ValidityPeriodRelative 143 = lit "720 minutes") :=
  ⟨⟨by decide, ValidityPeriodRelative_minutes 0 (by decide)⟩,
    ⟨by decide, ValidityPeriodRelative_minutes 143 (by decide)⟩⟩

/-- C16: for every byte `vp` from 144 to 167, `ValidityPeriodRelative vp` is the
decimal rendering of `(vp - 143) * 30 / 60 + 12`, with truncating integer
division, followed by " hours". -/
theorem ValidityPeriodRelative_hours (vp : Byte) (h : 144 ≤ vp.val ∧ vp.val ≤ 167) :
    ValidityPeriodRelative vp =
      lit (toString ((vp.val - 143) * 30 / 60 + 12) ++ " hours") := by
  revert vp
  decide

/-- The previous theorem at `vp = 144` and at `vp = 167`. -/
theorem ValidityPeriodRelative_hours_witness :
    ((144 ≤ (144 : Byte).val ∧ (144 : Byte).val ≤ 167) ∧
        ValidityPeriodRelative 144 = lit "12 hours") ∧
      ((144 ≤ (167 : Byte).val ∧ (167 : Byte).val ≤ 167) ∧
        ValidityPeriodRelative 167 = lit "24 hours") :=
  ⟨⟨by decide, ValidityPeriodRelative_hours 144 (by decide)⟩,
    ⟨by decide, ValidityPeriodRelative_hours 167 (by decide)⟩⟩

/-- C17: for every byte `vp` from 168 to 196, the overlap 187..196 included,
`ValidityPeriodRelative vp` is the decimal rendering of `vp - 166` followed by
" days"; for every byte from 197 to 255 it is the decimal rendering of
`vp - 192` followed by " weeks"; and no byte gives the empty string. -/
theorem ValidityPeriodRelative_days_weeks :
    (∀ vp : Byte,
      (168 ≤ vp.val ∧ vp.val ≤ 196 →
        ValidityPeriodRelative vp = lit (toString (vp.val - 166) ++ " days")) ∧
      (197 ≤ vp.val ∧ vp.val ≤ 255 →
        ValidityPeriodRelative vp = lit (toString (vp.val - 192) ++ " weeks")) ∧
      ValidityPeriodRelative vp ≠ []) ∧
    ValidityPeriodRelative 168 = lit "2 days" ∧ ValidityPeriodRelative 187 = lit "21 days" ∧
    ValidityPeriodRelative 196 = lit "30 days" ∧ ValidityPeriodRelative 197 = lit "5 weeks" ∧
    ValidityPeriodRelative 255 = lit "63 weeks" := by
  decide

/-- C12, evaluated at the time stamp bytes `12 50 30 90 03 00 88`: the top bit of
the timezone byte `0x88` is set (in the byte as it is and after the nibble
swap), so the claim gives "GMT -" and the decoding of the remaining 7 bits
over 4.  The source decodes the whole byte first, to 88, and tests bit 7 of
that number, which is clear: the result ends in "GMT +22". -/
theorem ServiceCentreTimeStamp_sign_after_decoding :
    ServiceCentreTimeStamp specCodecs westTimeStamp =
        some (lit "2021-05-03 09:30:00 GMT +22") ∧
      (0x88 : Byte).val &&& 0x80 ≠ 0 ∧ (specCodecs.Swap 0x88).val &&& 0x80 ≠ 0 ∧
      specCodecs.Decode (specCodecs.Swap 0x88) = 88 ∧ 88 &&& 0x80 = 0 ∧
      specCodecs.Decode (specCodecs.Swap (byteOf (0x88 &&& 0x7F))) / 4 = 20 ∧
      specCodecs.Decode (byteOf ((specCodecs.Swap 0x88).val &&& 0x7F)) / 4 = 2 := by
  decide

theorem sprintf02d_twoDigits : ∀ n : Fin 100, sprintf02d (n.val : Int) = twoDigits n.val := by
  decide

theorem swappedBCD_lt (b : Byte) (h : validBCD b) : swappedBCD b < 100 := by
  unfold validBCD at h
  unfold swappedBCD
  omega

theorem sprintf02d_swappedBCD (b : Byte) (h : validBCD b) :
    sprintf02d ((swappedBCD b : Nat) : Int) = twoDigits (swappedBCD b) :=
  sprintf02d_twoDigits ⟨swappedBCD b, swappedBCD_lt b h⟩

/-- C13: for 7 bytes of which the first six are valid swapped BCD, and codecs
whose `Decode (Swap b)` is the swapped-BCD value of such a byte,
`ServiceCentreTimeStamp` returns a string that begins with the century ("20"
when the year value is below 70, else "19"), the six values as two digits
each in the pattern `YY-MM-DD HH:MM:SS`, and " GMT "; each value is at most
99. -/
theorem ServiceCentreTimeStamp_date {ε : Type} (c : Codecs ε)
    (o0 o1 o2 o3 o4 o5 o6 : Byte)
    (hc : ∀ b : Byte, validBCD b → c.Decode (c.Swap b) = swappedBCD b)
    (hv : validBCD o0 ∧ validBCD o1 ∧ validBCD o2 ∧ validBCD o3 ∧ validBCD o4 ∧ validBCD o5) :
    (∃ tz : GoString, ServiceCentreTimeStamp c [o0, o1, o2, o3, o4, o5, o6] =
      some ((if swappedBCD o0 < 70 then lit "20" else lit "19") ++
        (twoDigits (swappedBCD o0) ++ lit "-" ++ twoDigits (swappedBCD o1) ++ lit "-" ++
          twoDigits (swappedBCD o2) ++ lit " " ++ twoDigits (swappedBCD o3) ++ lit ":" ++
          twoDigits (swappedBCD o4) ++ lit ":" ++ twoDigits (swappedBCD o5) ++ lit " GMT ") ++
        tz)) ∧
      swappedBCD o0 ≤ 99 ∧ swappedBCD o1 ≤ 99 ∧ swappedBCD o2 ≤ 99 ∧ swappedBCD o3 ≤ 99 ∧
      swappedBCD o4 ≤ 99 ∧ swappedBCD o5 ≤ 99 := by
  obtain ⟨h0, h1, h2, h3, h4, h5⟩ := hv
  have b0 := swappedBCD_lt o0 h0
  have b1 := swappedBCD_lt o1 h1
  have b2 := swappedBCD_lt o2 h2
  have b3 := swappedBCD_lt o3 h3
  have b4 := swappedBCD_lt o4 h4
  have b5 := swappedBCD_lt o5 h5
  refine ⟨?_, by omega, by omega, by omega, by omega, by omega, by omega⟩
  have hcc : ((swappedBCD o0 : Nat) : Int) < 70 ↔ swappedBCD o0 < 70 := by omega
  unfold ServiceCentreTimeStamp
  simp only [List.length_cons, List.length_nil, List.take, List.map, List.getD_cons_zero,
    List.getD_cons_succ, hc o0 h0, hc o1 h1, hc o2 h2, hc o3 h3, hc o4 h4, hc o5 h5,
    sprintf02d_swappedBCD o0 h0, sprintf02d_swappedBCD o1 h1, sprintf02d_swappedBCD o2 h2,
    sprintf02d_swappedBCD o3 h3, sprintf02d_swappedBCD o4 h4, sprintf02d_swappedBCD o5 h5]
  rw [if_neg (by omega)]
  simp only [hcc]
  split
  · exact ⟨lit "+" ++ formatInt ((c.Decode (c.Swap o6) : Int).tdiv 4), by
      simp only [List.append_assoc]⟩
  · exact ⟨lit "-" ++ formatInt (((c.Decode (c.Swap o6) &&& 0x7F : Nat) : Int).tdiv 4), by
      simp only [List.append_assoc]⟩

/-- The previous theorem at the bytes `12 50 30 90 03 00 00` with the codecs of
the spec, where the whole result is "2021-05-03 09:30:00 GMT +0". -/
theorem ServiceCentreTimeStamp_date_witness :
    ServiceCentreTimeStamp specCodecs [0x12, 0x50, 0x30, 0x90, 0x03, 0x00, 0x00] =
        some (lit "2021-05-03 09:30:00 GMT +0") ∧
      (∀ b : Byte, validBCD b → specCodecs.Decode (specCodecs.Swap b) = swappedBCD b) ∧
      (validBCD 0x12 ∧ validBCD 0x50 ∧ validBCD 0x30 ∧ validBCD 0x90 ∧ validBCD 0x03 ∧
        validBCD 0x00) ∧
      ((∃ tz : GoString,
          ServiceCentreTimeStamp specCodecs [0x12, 0x50, 0x30, 0x90, 0x03, 0x00, 0x00] =
            some ((if swappedBCD 0x12 < 70 then lit "20" else lit "19") ++
              (twoDigits (swappedBCD 0x12) ++ lit "-" ++ twoDigits (swappedBCD 0x50) ++ lit "-" ++
                twoDigits (swappedBCD 0x30) ++ lit " " ++ twoDigits (swappedBCD 0x90) ++ lit ":" ++
                twoDigits (swappedBCD 0x03) ++ lit ":" ++ twoDigits (swappedBCD 0x00) ++
                lit " GMT ") ++
              tz)) ∧
        swappedBCD 0x12 ≤ 99 ∧ swappedBCD 0x50 ≤ 99 ∧ swappedBCD 0x30 ≤ 99 ∧
        swappedBCD 0x90 ≤ 99 ∧ swappedBCD 0x03 ≤ 99 ∧ swappedBCD 0x00 ≤ 99) :=
  ⟨by decide, by decide, by decide,
    ServiceCentreTimeStamp_date specCodecs 0x12 0x50 0x30 0x90 0x03 0x00 0x00 (by decide)
      (by decide)⟩

/-- C19: for UCS2 the padding argument has no influence, for every codec,
payload and padding.  For EightBit it has: `UserData` sends that alphabet down
the packed-7-bit path, where a padding other than 0 decodes the first byte
apart (the octets `41 42` give " B" with padding 1 and "A" followed by U+00E8
with padding 0) and panics on an empty payload, which padding 0 decodes. -/
theorem UserData_eightBit_padding_matters :
    (∀ (ε : Type) (c : Codecs ε) (octets : List Byte) (p : Nat),
        UserData c octets DCSUC2 p = UserData c octets DCSUC2 0) ∧
      UserData specCodecs [0x41, 0x42] DCS8Bit 1 = some (lit " B", none) ∧
      UserData specCodecs [0x41, 0x42] DCS8Bit 0 = some ([0x41, 0xC3, 0xA8], none) ∧
      UserData specCodecs [] DCS8Bit 1 = none ∧
      UserData specCodecs [] DCS8Bit 0 = some ([], none) := by
  refine ⟨fun ε c octets p => ?_, by decide, by decide, by decide, by decide⟩
  simp [UserData]

/-- The other two float expressions of the source are exact as well: for every
byte, `math.Ceil(float64(n)/2)` in the address length and
`math.Ceil(float64(o)*70/80)` in `UserDataLength` are the integer ceilings the
embedding uses. -/
theorem float64Ceil_exact : ∀ n : Byte,
    float64Ceil (float64Div n.val 2) = ceilDiv n.val 2 ∧
      float64Ceil (float64Div (n.val * 70) 80) = ceilDiv (n.val * 70) 80 := by
  decide

theorem paddingUDHL_bounded : ∀ L : Byte, 1 ≤ L.val →
    paddingUDHL L.val = ceilDiv ((L.val + 1) * 8) 7 * 7 - (L.val + 1) * 8 ∧
      paddingUDHLFloat L.val = paddingUDHL L.val := by
  decide

/-- C20: for every declared header length `L` from 1 to 255 the padding is the
least multiple of 7 that is at least `(L + 1) * 8`, minus `(L + 1) * 8`; it is
at most 6; `(L + 1) * 8` plus the padding is divisible by 7; and the source's
float computation (binary64 division rounded to nearest, `math.Ceil`) gives
the same number. -/
theorem paddingUDHL_arith (L : Byte) (h : 1 ≤ L.val) :
    (∃ m : Nat, m % 7 = 0 ∧ (L.val + 1) * 8 ≤ m ∧
        (∀ k : Nat, k % 7 = 0 → (L.val + 1) * 8 ≤ k → m ≤ k) ∧
        paddingUDHL L.val = m - (L.val + 1) * 8) ∧
      paddingUDHL L.val ≤ 6 ∧
      ((L.val + 1) * 8 + paddingUDHL L.val) % 7 = 0 ∧
      paddingUDHLFloat L.val = paddingUDHL L.val := by
  obtain ⟨hp, hf⟩ := paddingUDHL_bounded L h
  have hm : ceilDiv ((L.val + 1) * 8) 7 * 7 = ((L.val + 1) * 8 + 6) / 7 * 7 := by
    simp [ceilDiv]
  rw [hm] at hp
  refine ⟨⟨((L.val + 1) * 8 + 6) / 7 * 7, by omega, by omega, ?_, hp⟩, by omega, by omega, hf⟩
  intro k hk hle
  omega

/-- The previous theorem at `L = 5`: 48 header bits, next multiple of 7 is 49,
padding 1. -/
theorem paddingUDHL_arith_witness :
    1 ≤ (5 : Byte).val ∧ ((5 : Byte).val + 1) * 8 = 48 ∧ paddingUDHL 5 = 1 ∧
      float64Ceil (float64Div 48 7) * 7 = 49 ∧
      ((∃ m : Nat, m % 7 = 0 ∧ ((5 : Byte).val + 1) * 8 ≤ m ∧
          (∀ k : Nat, k % 7 = 0 → ((5 : Byte).val + 1) * 8 ≤ k → m ≤ k) ∧
          paddingUDHL (5 : Byte).val = m - ((5 : Byte).val + 1) * 8) ∧
        paddingUDHL (5 : Byte).val ≤ 6 ∧
        (((5 : Byte).val + 1) * 8 + paddingUDHL (5 : Byte).val) % 7 = 0 ∧
        paddingUDHLFloat (5 : Byte).val = paddingUDHL (5 : Byte).val) :=
  ⟨by decide, by decide, by decide, by decide, paddingUDHL_arith 5 (by decide)⟩


/-- C18: when `Decode` succeeds on a buffer whose PDU-type byte, the byte at
index `b[0] + 1`, is `t`: the kind is Deliver when `t & 1 = 0` and Submit when
`t & 1 = 1`; a Deliver message has an empty validity period; a Submit message
has an empty service centre time stamp, and an empty validity period when
`t & 0x18 = 0`. -/
theorem Decode_kind {ε : Type} (c : Codecs ε) (octets spare : List Byte) (m : Message)
    (t : Byte)
    (hok : Decode c octets spare = { msg := some m, err := none })
    (ht : pduTypeByte octets = some t) :
    (t.val &&& 0x1 = 0 → m.MType = MessageDeliver ∧ m.ValidityPeriod = []) ∧
      (t.val &&& 0x1 = 1 →
        m.MType = MessageSubmit ∧ m.ServiceCenterTime = [] ∧
          (t.val &&& 0x18 = 0 → m.ValidityPeriod = [])) := by
  obtain ⟨f, hf, hr⟩ := (Decode_ok_iff c octets spare m).1 hok
  obtain ⟨-, -, -, hty⟩ := decodeFixed_next c octets spare f hf
  have htf : f.pduTypeByte = t := by
    rw [hty] at ht
    exact Option.some.inj ht
  obtain ⟨hD, hS⟩ := decodeFixed_fields c octets spare f hf
  obtain ⟨hm, hv, hs⟩ := decodeRest_fields c octets spare f m hr
  rw [htf] at hD hS
  refine ⟨fun h0 => ?_, fun h1 => ?_⟩
  · obtain ⟨a, b⟩ := hD h0
    exact ⟨hm.trans a, hv.trans b⟩
  · have hne : t.val &&& 0x1 ≠ 0 := by
      rw [h1]
      decide
    obtain ⟨a, b, d⟩ := hS hne
    exact ⟨hm.trans a, hs.trans b, fun h18 => hv.trans (d h18)⟩

/-- The previous theorem at the Deliver PDU `howDeliver` and at the Submit PDU
`helloSubmit`. -/
theorem Decode_kind_witness :
    (Decode specCodecs howDeliver [] = { msg := some howMessage, err := none } ∧
      pduTypeByte howDeliver = some 0x04 ∧
      ((0x04 : Byte).val &&& 0x1 = 0 →
          howMessage.MType = MessageDeliver ∧ howMessage.ValidityPeriod = []) ∧
      ((0x04 : Byte).val &&& 0x1 = 1 →
          howMessage.MType = MessageSubmit ∧ howMessage.ServiceCenterTime = [] ∧
            ((0x04 : Byte).val &&& 0x18 = 0 → howMessage.ValidityPeriod = []))) ∧
    (Decode specCodecs helloSubmit [] = { msg := some helloMessage, err := none } ∧
      pduTypeByte helloSubmit = some 0x01 ∧
      ((0x01 : Byte).val &&& 0x1 = 0 →
          helloMessage.MType = MessageDeliver ∧ helloMessage.ValidityPeriod = []) ∧
      ((0x01 : Byte).val &&& 0x1 = 1 →
          helloMessage.MType = MessageSubmit ∧ helloMessage.ServiceCenterTime = [] ∧
            ((0x01 : Byte).val &&& 0x18 = 0 → helloMessage.ValidityPeriod = []))) :=
  ⟨⟨by decide, by decide,
      Decode_kind specCodecs howDeliver [] howMessage 0x04 (by decide) (by decide)⟩,
    ⟨by decide, by decide,
      Decode_kind specCodecs helloSubmit [] helloMessage 0x01 (by decide) (by decide)⟩⟩

end PduDecoder
